import Mathlib

/-!
Verification development for the ds-geo-tracker core: a shallow embedding of
the response analysis module (src/analysis.js), the provider normalizers
(src/sources/perplexity.js, chatgpt.js, claude.js), the Plausible delivery
client retry loop (src/plausible.js) and the orchestrator (src/orchestrator.js),
together with theorems settling the specification claims about them.

JavaScript strings are modelled as `List Char` (`toLowerCase` is mapped
character-wise; the rare Unicode lowercasings that change JS string length are
outside the scope of the claims).  JavaScript numbers appearing in the claims
are small integers, modelled as `Int`/`Nat`; the one floating-point expression
that a claim touches (the mention-quartile `Math.ceil(offset / len * 4)`) is
modelled by the exact rational ceiling, which agrees with the IEEE-double
computation for every representable string length (the two can only differ when
`4*offset/len` is within one ulp of an integer without being one, which needs
`len > 2^50`).  Code that can throw is modelled in the `Except Unit` monad.
-/

/--
JavaScript-like runtime values.  Arrays and objects compare by reference in
JS (`Set` membership uses SameValueZero, under which two distinct array/object
literals are never equal), so value equality on `arr`/`obj` is modelled as
`false` in `JSVal.sameValueZero`; the payloads in the theorems below never
alias one object in two places, making this faithful.
-/
inductive JSVal where
  | undef
  | null
  | bool (b : Bool)
  | num (n : Int)
  | str (s : List Char)
  | arr (elems : List JSVal)
  | obj (fields : List (String × JSVal))

/-- JS truthiness of a value. -/
def JSVal.truthy : JSVal → Bool
  | .undef => false
  | .null => false
  | .bool b => b
  | .num n => n != 0
  | .str s => !s.isEmpty
  | .arr _ => true
  | .obj _ => true

/-- JS `a || b`. -/
def jsOr (a b : JSVal) : JSVal := if a.truthy then a else b

/-- Property read on an object literal (field lists model JS objects). -/
def objGet (fields : List (String × JSVal)) (k : String) : JSVal :=
  match fields.find? (fun p => p.1 == k) with
  | some p => p.2
  | none => JSVal.undef

/-- JS property access `v.k`: throws a TypeError on null/undefined; yields
undefined on values that do not carry the property (primitives and arrays, for
the property names the embedded code reads). -/
def JSVal.getProp : JSVal → String → Except Unit JSVal
  | .undef, _ => .error ()
  | .null, _ => .error ()
  | .obj fs, k => .ok (objGet fs k)
  | _, _ => .ok JSVal.undef

/-- JS optional-chain access `v?.k`: nullish receivers short-circuit to
undefined instead of throwing. -/
def JSVal.optProp : JSVal → String → JSVal
  | .undef, _ => .undef
  | .null, _ => .undef
  | .obj fs, k => objGet fs k
  | _, _ => JSVal.undef

/-- JS optional-chain index `v?.[i]`: arrays index their elements, strings
index their characters, anything else yields undefined. -/
def JSVal.optIdx : JSVal → Nat → JSVal
  | .undef, _ => .undef
  | .null, _ => .undef
  | .arr xs, i => xs.getD i .undef
  | .str s, i =>
      match s.drop i with
      | [] => .undef
      | c :: _ => .str [c]
  | _, _ => JSVal.undef

/-- SameValueZero, the equality JS `Set` membership uses.  Arrays and objects
compare by reference; distinct literals are never the same reference. -/
def JSVal.sameValueZero : JSVal → JSVal → Bool
  | .undef, .undef => true
  | .null, .null => true
  | .bool a, .bool b => a == b
  | .num a, .num b => a == b
  | .str a, .str b => a == b
  | _, _ => false

/-- JS string conversion as used by `+` concatenation and `Array.join`.  The
`arr` case (JS joins the elements with commas) is never reached by the
theorems below and is left as the empty string. -/
def JSVal.toJsString : JSVal → List Char
  | .undef => "undefined".toList
  | .null => "null".toList
  | .bool true => "true".toList
  | .bool false => "false".toList
  | .num n => (toString n).toList
  | .str s => s
  | .arr _ => []
  | .obj _ => "[object Object]".toList

/-- Operands that JS `+` treats numerically (booleans and null coerce to
numbers; strings, arrays and objects trigger string concatenation). -/
def JSVal.toNumForAdd : JSVal → Option Int
  | .num n => some n
  | .bool b => some (if b then 1 else 0)
  | .null => some 0
  | _ => none

/-- JS `a + b` for the operand shapes reaching the embedded call sites: both
sites guard each operand with `|| 0` or start from a string accumulator, so
`undefined` (which would give NaN in JS) never reaches an operand. -/
def jsAdd (a b : JSVal) : JSVal :=
  match a.toNumForAdd, b.toNumForAdd with
  | some x, some y => .num (x + y)
  | _, _ => .str (a.toJsString ++ b.toJsString)

/-- JS `for (const x of v)`: arrays iterate their elements, strings iterate
their characters (as one-character strings), anything else throws. -/
def jsIter : JSVal → Except Unit (List JSVal)
  | .arr xs => .ok xs
  | .str s => .ok (s.map (fun c => .str [c]))
  | _ => .error ()

/-- Receiver check for JS `.filter`/`.map`: only arrays carry these methods;
any other receiver (strings included) throws a TypeError. -/
def jsArrayMethod : JSVal → Except Unit (List JSVal)
  | .arr xs => .ok xs
  | _ => .error ()

/-- The needle occurs in the haystack at offset `i`. -/
def matchesAt (hay needle : List Char) (i : Nat) : Bool :=
  (hay.drop i).take needle.length == needle

/-- JS `hay.includes(needle)` for strings. -/
def strIncludes (hay needle : List Char) : Bool :=
  (List.range (hay.length + 1)).any (fun i => matchesAt hay needle i)

/-- First occurrence offset of the needle, if any. -/
def firstIndex? (hay needle : List Char) : Option Nat :=
  (List.range (hay.length + 1)).find? (fun i => matchesAt hay needle i)

/-- JS `hay.indexOf(needle)`: first occurrence offset, or -1. -/
def strIndexOf (hay needle : List Char) : Int :=
  match firstIndex? hay needle with
  | some i => (i : Int)
  | none => -1

/-- Character-wise lowercasing, the model of JS `toLowerCase` on strings. -/
def lowerStr (s : List Char) : List Char := s.map Char.toLower

/-- JS `v.toLowerCase()`: only strings carry the method; anything else
throws a TypeError. -/
def jsToLowerCase : JSVal → Except Unit (List Char)
  | .str s => .ok (lowerStr s)
  | _ => .error ()

/-- JS `v.includes(needle)` with a string argument, dispatched on the
receiver: strings test substring containment, arrays test SameValueZero
element membership, anything else throws a TypeError. -/
def jsIncludesStr (v : JSVal) (needle : List Char) : Except Unit Bool :=
  match v with
  | .str s => .ok (strIncludes s needle)
  | .arr xs => .ok (xs.any (fun x => x.sameValueZero (.str needle)))
  | _ => .error ()

/-- Left-to-right monadic fold, the model of a JS `for … of` loop that
mutates an accumulator and may throw. -/
def foldME {σ α : Type} (f : σ → α → Except Unit σ) : σ → List α → Except Unit σ
  | s, [] => .ok s
  | s, x :: xs => do
      let s' ← f s x
      foldME f s' xs

/-- Left-to-right monadic map, the model of JS `Array.map` with a callback
that may throw. -/
def mapME {α β : Type} (f : α → Except Unit β) : List α → Except Unit (List β)
  | [] => .ok []
  | x :: xs => do
      let y ← f x
      let ys ← mapME f xs
      pure (y :: ys)

/-- Left-to-right monadic filter, the model of JS `Array.filter` with a
callback that may throw. -/
def filterME {α : Type} (p : α → Except Unit Bool) : List α → Except Unit (List α)
  | [] => .ok []
  | x :: xs => do
      let b ← p x
      let rest ← filterME p xs
      pure (if b then x :: rest else rest)

namespace Analysis

/-- Keywords indicating Development Seed presence (src/analysis.js). -/
def DS_KEYWORDS : List (List Char) :=
  [ "development seed".toList
  , "developmentseed".toList
  , "devseed".toList
  , "titiler".toList
  , "veda dashboard".toList
  , "veda".toList
  , "cogeo-mosaic".toList ]

/-- Domain string matched in citations and search results (src/analysis.js). -/
def DS_DOMAIN : List Char := "developmentseed.org".toList

/-- Recommendation-language lexicon (src/analysis.js). -/
def RECOMMENDATION_WORDS : List (List Char) :=
  [ "recommended".toList
  , "recommend".toList
  , "best".toList
  , "popular".toList
  , "leading".toList
  , "top".toList
  , "excellent".toList
  , "powerful".toList
  , "widely used".toList
  , "well-known".toList
  , "go-to".toList
  , "notable".toList
  , "prominent".toList
  , "trusted".toList ]

/-- Result of `detectMentions`. -/
structure MentionOutcome where
  mentioned : Bool
  position : Nat

/-- The keyword scan of `detectMentions`: `earliest` carries the running
earliest index with the JS sentinel -1 for "none found". -/
def detectMentionsLoop (contentLower : List Char) :
    List (List Char) → Int → Int
  | [], earliest => earliest
  | kw :: rest, earliest =>
      let index := strIndexOf contentLower (lowerStr kw)
      let e' := if index != -1 && (earliest == -1 || decide (index < earliest))
                then index else earliest
      detectMentionsLoop contentLower rest e'

/--
Embeds `detectMentions` from src/analysis.js.  The JS position computation
`Math.ceil(earliestIndex / Math.max(len,1) * 4) || 1` is modelled by the exact
rational ceiling `(4*offset + d - 1) / d` with `d = max len 1`, followed by the
`|| 1` replacement of 0 by 1; see the module comment for why the IEEE-double
computation agrees.
-/
def detectMentions (contentLower : List Char) : MentionOutcome :=
  let earliestIndex := detectMentionsLoop contentLower DS_KEYWORDS (-1)
  if earliestIndex == -1 then ⟨false, 0⟩
  else
    let offset := earliestIndex.toNat
    let d := max contentLower.length 1
    let p := (4 * offset + d - 1) / d
    ⟨true, if p == 0 then 1 else p⟩

/-- Embeds `detectRecommendation` from src/analysis.js: any lexicon word occurring
anywhere in the lowered content. -/
def detectRecommendation (contentLower : List Char) : Bool :=
  RECOMMENDATION_WORDS.any (fun w => strIncludes contentLower (lowerStr w))

/-- Embeds `Set.add` on the insertion-ordered set backing `dsUrls`. -/
def addToSet (s : List JSVal) (v : JSVal) : List JSVal :=
  if s.any (fun x => x.sameValueZero v) then s else s ++ [v]

/-- Embeds `extractDsPages` from src/analysis.js.  The citation loop only tests
values that pass `typeof url === 'string'`; the search-result loop reads
`result.url` (throwing on nullish elements) and calls `.includes` on truthy
urls (throwing on receivers without the method). -/
def extractDsPages (citations searchResults : JSVal) : Except Unit (List JSVal) := do
  let citList ← jsIter citations
  let afterCits := citList.foldl (fun acc url =>
      match url with
      | .str s => if strIncludes s DS_DOMAIN then addToSet acc (.str s) else acc
      | _ => acc) []
  let srList ← jsIter searchResults
  foldME (fun acc r => do
      let u ← r.getProp "url"
      if u.truthy then do
        let b ← jsIncludesStr u DS_DOMAIN
        pure (if b then addToSet acc u else acc)
      else
        pure acc) afterCits srList

/-- The factor record destructured by `calculateScore` (`contentLength` is
received but never used by the source function). -/
structure ScoreFactors where
  mentioned : Bool
  recommended : Bool
  position : Nat
  citationCount : Nat
  contentLength : Nat

/-- Embeds `calculateScore` from src/analysis.js. -/
def calculateScore (f : ScoreFactors) : Nat :=
  if !f.mentioned && f.citationCount == 0 then 0
  else
    let s1 := if f.mentioned then 0 + 30 else 0
    let s2 := if f.recommended then s1 + 20 else s1
    let s3 := if f.citationCount ≥ 1 then s2 + 15 + min ((f.citationCount - 1) * 10) 20 else s2
    let s4 := if f.mentioned && f.position == 1 then s3 + 15
              else if f.mentioned && f.position == 2 then s3 + 8
              else s3
    min s4 100

/-- The analysis output record. -/
structure AnalysisResult where
  mentioned : Bool
  recommended : Bool
  position : Nat
  citationCount : Nat
  prominenceScore : Nat
  dsPages : List JSVal

/-- The object passed to `analyzeResponse`: its four read fields, each an
arbitrary JS value (`undef` models an absent field). -/
structure AnalyzerInput where
  content : JSVal
  citations : JSVal
  searchResults : JSVal
  usage : JSVal

/--
Embeds `analyzeResponse` from src/analysis.js.  The source reads `content.length`
after having called `content.toLowerCase()`; since the latter throws unless
`content` is a string and the character-wise lowering preserves length, the
length of `contentLower` is used here.  The `usage` field of the input is
never read.
-/
def analyzeResponse (input : AnalyzerInput) : Except Unit AnalysisResult := do
  let content := jsOr input.content (.str [])
  let citations := jsOr input.citations (.arr [])
  let searchResults := jsOr input.searchResults (.arr [])
  let contentLower ← jsToLowerCase content
  let m := detectMentions contentLower
  let recommended := if m.mentioned then detectRecommendation contentLower else false
  let dsPages ← extractDsPages citations searchResults
  let citationCount := dsPages.length
  let prominenceScore := calculateScore
    ⟨m.mentioned, recommended, m.position, citationCount, contentLower.length⟩
  pure ⟨m.mentioned, recommended, m.position, citationCount, prominenceScore, dsPages⟩

end Analysis

/-- One normalized search-result entry `{title, url, snippet}` as built by the
normalizers; the fields hold whatever JS values the payload supplied. -/
structure SearchResultV where
  title : JSVal
  url : JSVal
  snippet : JSVal

/-- The normalized `usage` record. -/
structure UsageV where
  promptTokens : JSVal
  completionTokens : JSVal
  totalTokens : JSVal

/-- The canonical `NormalizedResult` produced by every provider normalizer. -/
structure NormalizedResult where
  content : JSVal
  citations : List JSVal
  searchResults : List SearchResultV
  usage : UsageV

namespace Perplexity

/-- The citations passthrough of the Perplexity normalizer:
`Array.isArray(data.citations) ? data.citations : []`. -/
def rawCitations (data : List (String × JSVal)) : List JSVal :=
  match objGet data "citations" with
  | .arr xs => xs
  | _ => []

/-- The search-results guard: `Array.isArray(data.search_results) ? … : []`. -/
def rawSearchResults (data : List (String × JSVal)) : List JSVal :=
  match objGet data "search_results" with
  | .arr xs => xs
  | _ => []

/-- Embeds `normalizeResponse` from src/sources/perplexity.js. -/
def normalizeResponse (data : List (String × JSVal)) : Except Unit NormalizedResult := do
  let content := jsOr ((((objGet data "choices").optIdx 0).optProp "message").optProp "content")
      (.str [])
  let citations := rawCitations data
  let searchResults ← mapME (fun r => do
      let t ← r.getProp "title"
      let u ← r.getProp "url"
      let sn ← r.getProp "snippet"
      pure (⟨jsOr t (.str []), jsOr u (.str []), jsOr sn (.str [])⟩ : SearchResultV))
    (rawSearchResults data)
  let usage := jsOr (objGet data "usage") (.obj [])
  let pt ← usage.getProp "prompt_tokens"
  let ct ← usage.getProp "completion_tokens"
  let tt ← usage.getProp "total_tokens"
  pure { content := content, citations := citations, searchResults := searchResults,
         usage := ⟨jsOr pt (.num 0), jsOr ct (.num 0), jsOr tt (.num 0)⟩ }

end Perplexity

namespace ChatGPT

/-- The mutable state of the ChatGPT normalizer loops:
the `content` accumulator, the `citationSet` and the `searchResults` list. -/
structure NormState where
  content : JSVal
  citationSet : List JSVal
  searchResults : List SearchResultV

/-- The body of the annotation loop in src/sources/chatgpt.js. -/
def processAnn (s : NormState) (ann : JSVal) : Except Unit NormState := do
  let t ← ann.getProp "type"
  if t.sameValueZero (.str "url_citation".toList) then do
    let u ← ann.getProp "url"
    if u.truthy then do
      let ti ← ann.getProp "title"
      pure { content := s.content
           , citationSet := Analysis.addToSet s.citationSet u
           , searchResults := s.searchResults ++ [⟨jsOr ti (.str []), u, .str []⟩] }
    else
      pure s
  else
    pure s

/-- The body of the content-parts loop: `output_text` parts append their text
to the content and run the annotation loop. -/
def processPart (s : NormState) (part : JSVal) : Except Unit NormState := do
  let t ← part.getProp "type"
  if t.sameValueZero (.str "output_text".toList) then do
    let tx ← part.getProp "text"
    let s1 : NormState := { s with content := jsAdd s.content (jsOr tx (.str [])) }
    let annsRaw ← part.getProp "annotations"
    let anns ← jsIter (jsOr annsRaw (.arr []))
    foldME processAnn s1 anns
  else
    pure s

/-- The body of the message-items loop. -/
def processMsg (s : NormState) (msg : JSVal) : Except Unit NormState := do
  let partsRaw ← msg.getProp "content"
  let parts ← jsIter (jsOr partsRaw (.arr []))
  foldME processPart s parts

/-- Embeds `normalizeResponse` from src/sources/chatgpt.js. -/
def normalizeResponse (data : List (String × JSVal)) : Except Unit NormalizedResult := do
  let output ← jsArrayMethod (jsOr (objGet data "output") (.arr []))
  let messageItems ← filterME (fun item => do
      let t ← item.getProp "type"
      pure (t.sameValueZero (.str "message".toList))) output
  let s ← foldME processMsg ⟨.str [], [], []⟩ messageItems
  let usage := jsOr (objGet data "usage") (.obj [])
  let it ← usage.getProp "input_tokens"
  let ot ← usage.getProp "output_tokens"
  pure { content := s.content, citations := s.citationSet, searchResults := s.searchResults,
         usage := ⟨jsOr it (.num 0), jsOr ot (.num 0),
                   jsAdd (jsOr it (.num 0)) (jsOr ot (.num 0))⟩ }

end ChatGPT

namespace Claude

/-- Embeds `normalizeResponse` from the Claude source module: text blocks are
filtered, their texts joined with the empty separator; citations and search
results are structurally empty. -/
def normalizeResponse (data : List (String × JSVal)) : Except Unit NormalizedResult := do
  let contentBlocks ← jsArrayMethod (jsOr (objGet data "content") (.arr []))
  let textBlocks ← filterME (fun block => do
      let t ← block.getProp "type"
      pure (t.sameValueZero (.str "text".toList))) contentBlocks
  let texts ← mapME (fun block => do
      let tx ← block.getProp "text"
      pure (jsOr tx (.str []))) textBlocks
  let content : JSVal := .str (texts.map JSVal.toJsString).flatten
  let usage := jsOr (objGet data "usage") (.obj [])
  let it ← usage.getProp "input_tokens"
  let ot ← usage.getProp "output_tokens"
  pure { content := content, citations := [], searchResults := [],
         usage := ⟨jsOr it (.num 0), jsOr ot (.num 0),
                   jsAdd (jsOr it (.num 0)) (jsOr ot (.num 0))⟩ }

end Claude

namespace Plausible

/-- Retry budget of the delivery client (src/plausible.js). -/
def MAX_RETRIES : Nat := 1

/-- The error shapes `isTransientFailure` distinguishes on a rejected fetch. -/
inductive ErrKind where
  | abortError
  | typeError
  | econnreset
  | otherError
deriving DecidableEq

/-- What the sink does on one request: respond with an HTTP status, or make
the fetch reject with an error. -/
inductive SinkOutcome where
  | respond (status : Nat)
  | reject (e : ErrKind)

/-- Embeds `isTransientFailure(error, null)`: network errors, DNS failures and
timeouts are transient. -/
def isTransientFailureErr (e : ErrKind) : Bool :=
  e == .abortError || e == .typeError || e == .econnreset

/-- Embeds `isTransientFailure(null, status)`: 5xx and 429 are transient; the JS
truthiness guard on `status` is modelled by the `status != 0` test. -/
def isTransientFailureStatus (status : Nat) : Bool :=
  if status != 0 then decide (status ≥ 500) || status == 429 else false

/-- The retry loop of `sendEventToPlausible`, one call per loop iteration:
`outcomes n` is what the sink does on the request of attempt `n`.  Returns the
boolean result together with the number of attempts performed. -/
def sendLoop (outcomes : Nat → SinkOutcome) (attempt : Nat) : Bool × Nat :=
  match outcomes attempt with
  | .respond status =>
      if status == 202 then (true, attempt + 1)
      else if h : isTransientFailureStatus status = true ∧ attempt < MAX_RETRIES then
        sendLoop outcomes (attempt + 1)
      else (false, attempt + 1)
  | .reject e =>
      if h : isTransientFailureErr e = true ∧ attempt < MAX_RETRIES then
        sendLoop outcomes (attempt + 1)
      else (false, attempt + 1)
termination_by MAX_RETRIES + 1 - attempt
decreasing_by
  all_goals omega

/-- Embeds `sendEventToPlausible` from src/plausible.js, reduced to its control flow:
the unconfigured-domain guard returns false with no attempt; otherwise the
retry loop runs.  The payload, headers and daily synthetic IP are I/O details
with no bearing on the retry policy the claims describe. -/
def sendEventToPlausible (domainConfigured : Bool) (outcomes : Nat → SinkOutcome) :
    Bool × Nat :=
  if !domainConfigured then (false, 0)
  else sendLoop outcomes 0

/-- Whether one sink outcome counts as a transient failure for the loop. -/
def transientOutcome : SinkOutcome → Bool
  | .respond s => isTransientFailureStatus s
  | .reject e => isTransientFailureErr e

end Plausible

namespace Orchestrator

open Analysis

/-- One configured query (searchTerms may be empty, in which case the JS
`query.searchTerms[0]` is `undefined`, modelled by `none`). -/
structure GeoQuery where
  id : String
  name : String
  category : String
  searchTerms : List String

/-- One LLM source as the orchestrator sees it.  `query` models the adapter
call: a raw error message, or a `NormalizedResult`. -/
structure Source where
  name : String
  rateLimitMs : Nat
  dataSource : String
  query : Option String → Except String NormalizedResult

/-- Per-event output row (the `EventRow` typedef of src/orchestrator.js). -/
structure EventRow where
  date : String
  source : String
  query_name : String
  query_id : String
  category : String
  prominence_score : Nat
  mentioned : Bool
  recommended : Bool
  position : Nat
  citation_count : Nat
  data_source : String
  ds_pages : List Char
  tokens : JSVal

/-- Per-source aggregate (the `SourceResult` typedef). -/
structure SourceResult where
  success : Nat
  fail : Nat
  tokens : JSVal
  cost : ℚ

/-- Embeds `dsPages.join(' | ')`. -/
def joinPipeSep (xs : List JSVal) : List Char :=
  List.intercalate " | ".toList (xs.map JSVal.toJsString)

/-- The per-source USD rate table of `estimateCost`; `rates[sourceName] || 1`. -/
def rateFor (sourceName : String) : ℚ :=
  if sourceName == "Perplexity" then 1
  else if sourceName == "Gemini" then 1 / 2
  else if sourceName == "ChatGPT" then 15 / 2
  else if sourceName == "Claude" then 6
  else 1

/-- Embeds `estimateCost` from src/orchestrator.js: `(totalTokens / 1_000_000) * rate`,
computed exactly over ℚ.  A non-numeric token total would be NaN in JS; it is
unreachable in the theorems below and mapped to 0. -/
def estimateCost (sourceName : String) (totalTokens : JSVal) : ℚ :=
  match totalTokens with
  | .num n => (n : ℚ) / 1000000 * rateFor sourceName
  | _ => 0

/-- View of a `NormalizedResult` as the object `analyzeResponse` receives. -/
def SearchResultV.toJSVal (r : SearchResultV) : JSVal :=
  .obj [("title", r.title), ("url", r.url), ("snippet", r.snippet)]

/-- The analyzer input built from a normalized result. -/
def NormalizedResult.toAnalyzerInput (r : NormalizedResult) : AnalyzerInput :=
  { content := r.content
  , citations := .arr r.citations
  , searchResults := .arr (r.searchResults.map SearchResultV.toJSVal)
  , usage := .obj [ ("promptTokens", r.usage.promptTokens)
                  , ("completionTokens", r.usage.completionTokens)
                  , ("totalTokens", r.usage.totalTokens) ] }

/-- The output row pushed for one successful query. -/
def buildRow (source : Source) (dateStr : String) (query : GeoQuery)
    (analysis : AnalysisResult) (queryTokens : JSVal) : EventRow :=
  { date := dateStr
  , source := source.name
  , query_name := query.name
  , query_id := query.id
  , category := query.category
  , prominence_score := analysis.prominenceScore
  , mentioned := analysis.mentioned
  , recommended := analysis.recommended
  , position := analysis.position
  , citation_count := analysis.citationCount
  , data_source := source.dataSource
  , ds_pages := joinPipeSep analysis.dsPages
  , tokens := queryTokens }

/-- The mutable state of the `trackSource` query loop. -/
structure TrackState where
  success : Nat
  fail : Nat
  totalTokens : JSVal
  rows : List EventRow

/-- One iteration of the `trackSource` loop: the adapter call, the token
accumulation (which in the source happens before the analysis), the analysis
(whose exception the surrounding try/catch would also count as a failure), and
the row push.  The rate-limit sleep has no bearing on the results. -/
def trackStep (source : Source) (dateStr : String) (st : TrackState)
    (query : GeoQuery) : TrackState :=
  match source.query query.searchTerms.head? with
  | .error _ => { st with fail := st.fail + 1 }
  | .ok result =>
      let queryTokens := result.usage.totalTokens
      let newTokens := jsAdd st.totalTokens queryTokens
      match analyzeResponse (NormalizedResult.toAnalyzerInput result) with
      | .error _ => { st with fail := st.fail + 1, totalTokens := newTokens }
      | .ok analysis =>
          { success := st.success + 1
          , fail := st.fail
          , totalTokens := newTokens
          , rows := st.rows ++ [buildRow source dateStr query analysis queryTokens] }

/-- Result of tracking one source over the query list. -/
structure TrackOutcome where
  sourceResult : SourceResult
  rows : List EventRow

/-- Embeds `trackSource` from src/orchestrator.js. -/
def trackSource (source : Source) (queryList : List GeoQuery) (dateStr : String) :
    TrackOutcome :=
  let st := queryList.foldl (trackStep source dateStr) ⟨0, 0, .num 0, []⟩
  { sourceResult := { success := st.success, fail := st.fail, tokens := st.totalTokens
                    , cost := estimateCost source.name st.totalTokens }
  , rows := st.rows }

/-- The aggregate run result (`TrackerResults`); the wall-clock `duration` is
not modelled. -/
structure TrackerResults where
  totalEvents : Nat
  totalSuccess : Nat
  totalFail : Nat
  totalTokens : JSVal
  totalCost : ℚ
  perSource : List (String × SourceResult)
  rows : List EventRow

/-- Assignment `perSource[name] = v` on the insertion-ordered JS object. -/
def setAssoc (m : List (String × SourceResult)) (k : String) (v : SourceResult) :
    List (String × SourceResult) :=
  if m.any (fun p => p.1 == k) then m.map (fun p => if p.1 == k then (k, v) else p)
  else m ++ [(k, v)]

/-- Lookup `perSource[name]`. -/
def lookupAssoc (m : List (String × SourceResult)) (k : String) : Option SourceResult :=
  (m.find? (fun p => p.1 == k)).map (fun p => p.2)

/-- The mutable state of the `runTracker` source loop. -/
structure RunState where
  perSource : List (String × SourceResult)
  allRows : List EventRow
  totalSuccess : Nat
  totalFail : Nat
  totalTokens : JSVal
  totalCost : ℚ

/-- One iteration of the `runTracker` source loop. -/
def runStep (queries : List GeoQuery) (dateStr : String) (st : RunState)
    (source : Source) : RunState :=
  let o := trackSource source queries dateStr
  { perSource := setAssoc st.perSource source.name o.sourceResult
  , allRows := st.allRows ++ o.rows
  , totalSuccess := st.totalSuccess + o.sourceResult.success
  , totalFail := st.totalFail + o.sourceResult.fail
  , totalTokens := jsAdd st.totalTokens o.sourceResult.tokens
  , totalCost := st.totalCost + o.sourceResult.cost }

/-- Embeds `runTracker` from src/orchestrator.js; `dateStr` stands for the
`new Date()` read at the start of the run. -/
def runTracker (queries : List GeoQuery) (sources : List Source) (dateStr : String) :
    TrackerResults :=
  let st := sources.foldl (runStep queries dateStr) ⟨[], [], 0, 0, .num 0, 0⟩
  { totalEvents := st.totalSuccess + st.totalFail
  , totalSuccess := st.totalSuccess
  , totalFail := st.totalFail
  , totalTokens := st.totalTokens
  , totalCost := st.totalCost
  , perSource := st.perSource
  , rows := st.allRows }

end Orchestrator


/-! Specification-side and proof-side definitions: Option-level views of the
JS sentinel loops, the well-typed result layer that the data model describes,
the spec's host notion, and the concrete payloads the claims evaluate. -/

namespace Analysis

/-- JS sentinel bridge: -1 encodes "no index yet". -/
def optToInt : Option Nat → Int
  | none => -1
  | some n => (n : Int)

/-- Combining the running earliest offset with one keyword's first index. -/
def combineMin : Option Nat → Option Nat → Option Nat
  | none, v => v
  | some a, none => some a
  | some a, some b => some (if b < a then b else a)

/-- The earliest-offset fold at the Option level. -/
def minFold (cl : List Char) (kws : List (List Char)) (acc : Option Nat) : Option Nat :=
  kws.foldl (fun a kw => combineMin a (firstIndex? cl (lowerStr kw))) acc

end Analysis

/-- One search result of a well-typed `NormalizedResult` (the data-model
shape: all three fields strings). -/
structure StrictSearchResult where
  title : List Char
  url : List Char
  snippet : List Char

/-- A well-typed `NormalizedResult` as the data model describes it: string
content, string citation URLs, string-field search results, integer tokens. -/
structure StrictResult where
  content : List Char
  citations : List (List Char)
  searchResults : List StrictSearchResult
  promptTokens : Int
  completionTokens : Int
  totalTokens : Int

/-- Embed a well-typed result into the general `NormalizedResult`. -/
def StrictResult.toNormalized (r : StrictResult) : NormalizedResult :=
  { content := .str r.content
  , citations := r.citations.map JSVal.str
  , searchResults := r.searchResults.map (fun sr => ⟨.str sr.title, .str sr.url, .str sr.snippet⟩)
  , usage := ⟨.num r.promptTokens, .num r.completionTokens, .num r.totalTokens⟩ }

/-- The analyzer input of a well-typed result. -/
def StrictResult.toInput (r : StrictResult) : Analysis.AnalyzerInput :=
  Orchestrator.NormalizedResult.toAnalyzerInput r.toNormalized

/-- The pure value of `extractDsPages` on well-typed data. -/
def dsPagesStrict (cits : List (List Char)) (srs : List StrictSearchResult) : List JSVal :=
  let a := cits.foldl (fun acc s =>
    if strIncludes s Analysis.DS_DOMAIN then Analysis.addToSet acc (.str s) else acc) []
  srs.foldl (fun acc sr =>
    if !sr.url.isEmpty && strIncludes sr.url Analysis.DS_DOMAIN
    then Analysis.addToSet acc (.str sr.url) else acc) a

/-- The pure value of `analyzeResponse` on well-typed data. -/
def analyzeStrict (r : StrictResult) : Analysis.AnalysisResult :=
  let cl := lowerStr r.content
  let m := Analysis.detectMentions cl
  let recommended := if m.mentioned then Analysis.detectRecommendation cl else false
  let dsPages := dsPagesStrict r.citations r.searchResults
  ⟨m.mentioned, recommended, m.position, dsPages.length,
   Analysis.calculateScore ⟨m.mentioned, recommended, m.position, dsPages.length, cl.length⟩,
   dsPages⟩

/-- Lists whose members are all JS strings. -/
def IsStrList (l : List JSVal) : Prop := ∀ v ∈ l, ∃ s, v = JSVal.str s

/-- Modelled from the spec: the host of a URL, the text between the scheme
separator and the next path/port/query/fragment delimiter.  The repository
has no URL parsing (the source matches by substring); the spec speaks of the
URL's host, so this definition follows the spec's words and exists only to
state the host-matching property. -/
def urlHostSpec (url : List Char) : List Char :=
  (match firstIndex? url "://".toList with
   | some i => url.drop (i + 3)
   | none => url).takeWhile (fun c => c != '/' && c != ':' && c != '?' && c != '#')

/-- Pairwise distinctness under SameValueZero, the `Set` invariant. -/
def PairwiseDistinct (l : List JSVal) : Prop :=
  l.Pairwise (fun a b => a.sameValueZero b = false)

/-- The ChatGPT payload carrying two url_citation annotations for the same
URL (the shape the chatgpt.test.js dedup test uses). -/
def chatgptDupPayload : List (String × JSVal) :=
  [ ("output", .arr [ .obj
      [ ("type", .str "message".toList)
      , ("content", .arr [ .obj
          [ ("type", .str "output_text".toList)
          , ("text", .str "t".toList)
          , ("annotations", .arr
              [ .obj [ ("type", .str "url_citation".toList)
                     , ("url", .str "https://example.com".toList)
                     , ("title", .str "Example".toList) ]
              , .obj [ ("type", .str "url_citation".toList)
                     , ("url", .str "https://example.com".toList)
                     , ("title", .str "Example again".toList) ] ]) ] ]) ] ])
  , ("usage", .obj [("input_tokens", .num 10), ("output_tokens", .num 20)]) ]

/-- A value that is neither null nor undefined (property access succeeds). -/
def NonNullish (v : JSVal) : Prop := v ≠ JSVal.null ∧ v ≠ JSVal.undef

/-- Payload shape under which the Perplexity normalizer cannot throw: the
elements of a present `search_results` array are not nullish. -/
def perplexityShapeOk (data : List (String × JSVal)) : Prop :=
  ∀ x ∈ Perplexity.rawSearchResults data, NonNullish x

/-- Payload shape under which the Claude normalizer cannot throw: `content`,
after the `|| []` default, is an array of non-nullish blocks. -/
def claudeShapeOk (data : List (String × JSVal)) : Prop :=
  ∃ xs, jsOr (objGet data "content") (.arr []) = .arr xs ∧ ∀ x ∈ xs, NonNullish x

/-- Shape of one ChatGPT content part: non-nullish, and if it is an object,
its `annotations`, after the `|| []` default, iterate into non-nullish
elements. -/
def chatgptPartOk (part : JSVal) : Prop :=
  NonNullish part ∧
  (∀ fs, part = .obj fs →
    ∃ anns, jsIter (jsOr (objGet fs "annotations") (.arr [])) = .ok anns ∧
      ∀ a ∈ anns, NonNullish a)

/-- Shape of one ChatGPT output item: non-nullish, and if it is an object,
its `content`, after the `|| []` default, iterates into well-shaped parts. -/
def chatgptItemOk (item : JSVal) : Prop :=
  NonNullish item ∧
  (∀ fs, item = .obj fs →
    ∃ parts, jsIter (jsOr (objGet fs "content") (.arr [])) = .ok parts ∧
      ∀ p ∈ parts, chatgptPartOk p)

/-- Payload shape under which the ChatGPT normalizer cannot throw: `output`,
after the `|| []` default, is an array of well-shaped items. -/
def chatgptShapeOk (data : List (String × JSVal)) : Prop :=
  ∃ items, jsOr (objGet data "output") (.arr []) = .arr items ∧
    ∀ item ∈ items, chatgptItemOk item

/-- The default normalized result that `{}` produces at every provider. -/
def defaultNormalized : NormalizedResult :=
  ⟨.str [], [], [], ⟨.num 0, .num 0, .num 0⟩⟩

namespace Orchestrator

/-- The row a given query contributes, if its call and analysis succeed. -/
def rowOf (source : Source) (dateStr : String) (q : GeoQuery) : Option EventRow :=
  match source.query q.searchTerms.head? with
  | .error _ => none
  | .ok result =>
      match Analysis.analyzeResponse (NormalizedResult.toAnalyzerInput result) with
      | .error _ => none
      | .ok analysis => some (buildRow source dateStr q analysis result.usage.totalTokens)

end Orchestrator

/-- A provider whose every call throws. -/
def c7SourceA : Orchestrator.Source := ⟨"A", 1000, "web", fun _ => .error "boom"⟩

/-- A provider whose every call succeeds with an empty well-typed result. -/
def c7SourceB : Orchestrator.Source :=
  ⟨"B", 1000, "web", fun _ => .ok (StrictResult.toNormalized ⟨[], [], [], 0, 0, 0⟩)⟩

/-- A one-query configuration. -/
def c7Queries : List Orchestrator.GeoQuery :=
  [⟨"veda-dashboard", "VEDA Dashboard", "product", ["What is VEDA?"]⟩]


/-! Theorems: helper lemmas, then the claim theorems. -/

/-- Claim C1, counterexample: at mentioned, recommended, position 1 and
citationCount 2 the score is 90, not the 100 the claim asserts for every
citationCount of at least 2. -/
theorem c1_counterexample :
    Analysis.calculateScore ⟨true, true, 1, 2, 0⟩ = 90 ∧
    Analysis.calculateScore ⟨true, true, 1, 2, 0⟩ ≠ 100 := by
  constructor <;> decide

/-- Claim C1 (amended): calculateScore returns 0 when mentioned is false and
citationCount is 0, and otherwise `min 100 S` with S the claimed sum of
bonuses; every result is at most 100; the maximal combination (mentioned,
recommended, position 1) reaches exactly 100 once citationCount is at least 3
(at citationCount 2 it reaches 90, see the counterexample). -/
theorem c1_score_spec (f : Analysis.ScoreFactors) :
    (Analysis.calculateScore f =
      if f.mentioned = false ∧ f.citationCount = 0 then 0
      else min ((if f.mentioned = true then 30 else 0) +
        (if f.recommended = true then 20 else 0) +
        (if 1 ≤ f.citationCount then 15 + min ((f.citationCount - 1) * 10) 20 else 0) +
        (if f.mentioned = true ∧ f.position = 1 then 15 else 0) +
        (if f.mentioned = true ∧ f.position = 2 then 8 else 0)) 100) ∧
    Analysis.calculateScore f ≤ 100 ∧
    (f.mentioned = true → f.recommended = true → f.position = 1 → 3 ≤ f.citationCount →
      Analysis.calculateScore f = 100) := by
  obtain ⟨m, r, p, cc, cl⟩ := f
  dsimp only [Analysis.calculateScore]
  refine ⟨?_, ?_, ?_⟩
  · cases m <;> cases r <;> simp <;> split_ifs <;> first | rfl | omega
  · cases m <;> cases r <;> simp <;> split_ifs <;> omega
  · rintro rfl rfl rfl h
    simp
    split_ifs <;> omega

/-- Witness for claim C1: the amended maximal combination evaluated at
citationCount 3. -/
theorem c1_witness : Analysis.calculateScore ⟨true, true, 1, 3, 0⟩ = 100 :=
  (c1_score_spec ⟨true, true, 1, 3, 0⟩).2.2 rfl rfl rfl (by decide)

namespace Plausible

lemma sendLoop_one (o : Nat → SinkOutcome) :
    sendLoop o 1 = ((match o 1 with
      | .respond s => s == 202
      | .reject _ => false), 2) := by
  rw [sendLoop]
  cases h : o 1 with
  | respond s =>
      by_cases h202 : s == 202
      · simp [h202]
      · simp [h202, MAX_RETRIES]
  | reject e => simp [MAX_RETRIES]

lemma sendLoop_zero (o : Nat → SinkOutcome) :
    sendLoop o 0 =
      match o 0 with
      | .respond s =>
          if s == 202 then (true, 1)
          else if isTransientFailureStatus s then sendLoop o 1 else (false, 1)
      | .reject e =>
          if isTransientFailureErr e then sendLoop o 1 else (false, 1) := by
  rw [sendLoop]
  cases h : o 0 with
  | respond s =>
      by_cases h202 : s == 202
      · simp [h202]
      · by_cases ht : isTransientFailureStatus s <;> simp [h202, ht, MAX_RETRIES]
  | reject e =>
      by_cases ht : isTransientFailureErr e <;> simp [ht, MAX_RETRIES]

end Plausible

namespace Plausible

/-- Closed-form behaviour of the configured-domain delivery call: a transient
first outcome leads to exactly one retry whose 202-ness decides the result; a
non-transient first outcome decides immediately. -/
lemma send_eq (o : Nat → SinkOutcome) :
    sendEventToPlausible true o =
      if transientOutcome (o 0) = true then
        ((match o 1 with | .respond s => s == 202 | .reject _ => false), 2)
      else
        ((match o 0 with | .respond s => s == 202 | .reject _ => false), 1) := by
  simp only [sendEventToPlausible, Bool.not_true, Bool.false_eq_true, if_false, sendLoop_zero]
  cases h0 : o 0 with
  | respond s =>
      by_cases h202 : s == 202
      · have hs : s = 202 := by simpa using h202
        subst hs
        simp [transientOutcome, isTransientFailureStatus]
      · by_cases ht : isTransientFailureStatus s
        · simp [h202, ht, transientOutcome, sendLoop_one]
        · simp [h202, ht, transientOutcome]
  | reject e =>
      by_cases ht : isTransientFailureErr e
      · simp [ht, transientOutcome, sendLoop_one]
      · simp [ht, transientOutcome]

end Plausible

/-- Claim C6: with the sink domain configured, sendEventToPlausible performs
at most two attempts (at most one retry); it returns true exactly when one of
the performed attempts got HTTP 202; the retry happens exactly when the first
outcome is transient (the network error kinds, 5xx, or 429); a non-transient
non-202 status returns false after one attempt; a sink answering 503 then 202
yields (true, 2 attempts), and 503 twice yields (false, 2 attempts). -/
theorem c6_retry_spec (o : Nat → Plausible.SinkOutcome) :
    (Plausible.sendEventToPlausible true o).2 ≤ 2 ∧
    ((Plausible.sendEventToPlausible true o).1 = true ↔
      ∃ i, i < (Plausible.sendEventToPlausible true o).2 ∧
        o i = Plausible.SinkOutcome.respond 202) ∧
    ((Plausible.sendEventToPlausible true o).2 = 2 ↔
      Plausible.transientOutcome (o 0) = true) ∧
    (∀ s, Plausible.isTransientFailureStatus s = false → s ≠ 202 →
      o 0 = Plausible.SinkOutcome.respond s →
      Plausible.sendEventToPlausible true o = (false, 1)) ∧
    Plausible.sendEventToPlausible true
      (fun i => if i == 0 then .respond 503 else .respond 202) = (true, 2) ∧
    Plausible.sendEventToPlausible true (fun _ => .respond 503) = (false, 2) := by
  have h503 : Plausible.sendEventToPlausible true
      (fun i => if i == 0 then .respond 503 else .respond 202) = (true, 2) := by
    rw [Plausible.send_eq]
    simp [Plausible.transientOutcome, Plausible.isTransientFailureStatus]
  have h503b : Plausible.sendEventToPlausible true (fun _ => .respond 503) = (false, 2) := by
    rw [Plausible.send_eq]
    simp [Plausible.transientOutcome, Plausible.isTransientFailureStatus]
  rw [Plausible.send_eq]
  by_cases hT : Plausible.transientOutcome (o 0) = true
  · have h0ne : ∀ s, o 0 = Plausible.SinkOutcome.respond s → s ≠ 202 := by
      intro s h0 hs
      subst hs
      rw [h0] at hT
      exact absurd hT (by decide)
    refine ⟨by simp [hT], ?_, by simp [hT], ?_, h503, h503b⟩
    · simp only [hT, if_true]
      cases h1 : o 1 with
      | respond s2 =>
          constructor
          · intro hb
            have hs2 : s2 = 202 := by simpa using hb
            exact ⟨1, Nat.one_lt_two, by rw [h1, hs2]⟩
          · rintro ⟨i, hi, hoi⟩
            have hi2 : i < 2 := hi
            interval_cases i
            · exact absurd rfl (h0ne 202 hoi)
            · rw [h1] at hoi
              injection hoi with he
              simp [he]
      | reject e =>
          constructor
          · intro hb; exact (Bool.false_ne_true hb).elim
          · rintro ⟨i, hi, hoi⟩
            have hi2 : i < 2 := hi
            interval_cases i
            · exact absurd rfl (h0ne 202 hoi)
            · rw [h1] at hoi; cases hoi
    · intro s hTs hne h0
      rw [h0] at hT
      simp [Plausible.transientOutcome, hTs] at hT
  · refine ⟨by simp [hT], ?_, by simp [hT], ?_, h503, h503b⟩
    · simp only [hT, if_false]
      cases h0 : o 0 with
      | respond s =>
          constructor
          · intro hb
            have hs : s = 202 := by simpa using hb
            exact ⟨0, Nat.zero_lt_one, by rw [h0, hs]⟩
          · rintro ⟨i, hi, hoi⟩
            have hi1 : i < 1 := hi
            interval_cases i
            rw [h0] at hoi
            injection hoi with he
            simp [he]
      | reject e =>
          constructor
          · intro hb; exact (Bool.false_ne_true hb).elim
          · rintro ⟨i, hi, hoi⟩
            have hi1 : i < 1 := hi
            interval_cases i
            rw [h0] at hoi; cases hoi
    · intro s hTs hne h0
      have hTf : Plausible.transientOutcome (o 0) = false := by
        rw [h0]
        simp [Plausible.transientOutcome, hTs]
      have hb : (s == 202) = false := by simpa using hne
      simp [hTf, h0, hb, Plausible.transientOutcome, hTs]

namespace Analysis

lemma ofNat_bne_negone (n : Nat) : (((n : Int)) != (-1 : Int)) = true := by
  simp [bne]

lemma ofNat_beq_negone (n : Nat) : (((n : Int)) == (-1 : Int)) = false := by
  simp [beq_iff_eq]

lemma strIndexOf_eq_optToInt (hay nd : List Char) :
    strIndexOf hay nd = optToInt (firstIndex? hay nd) := by
  unfold strIndexOf optToInt
  cases firstIndex? hay nd <;> rfl

lemma detectMentionsLoop_eq_minFold (cl : List Char) :
    ∀ (kws : List (List Char)) (acc : Option Nat),
      detectMentionsLoop cl kws (optToInt acc) = optToInt (minFold cl kws acc) := by
  intro kws
  induction kws with
  | nil => intro acc; rfl
  | cons kw rest ih =>
      intro acc
      show detectMentionsLoop cl (kw :: rest) (optToInt acc) = _
      rw [detectMentionsLoop]
      rw [strIndexOf_eq_optToInt]
      have hstep :
          (if (optToInt (firstIndex? cl (lowerStr kw)) != -1 &&
                (optToInt acc == -1 ||
                  decide (optToInt (firstIndex? cl (lowerStr kw)) < optToInt acc)))
            then optToInt (firstIndex? cl (lowerStr kw)) else optToInt acc) =
          optToInt (combineMin acc (firstIndex? cl (lowerStr kw))) := by
        cases hfi : firstIndex? cl (lowerStr kw) with
        | none =>
            cases acc <;> simp [optToInt, combineMin]
        | some i =>
            cases acc with
            | none => simp [optToInt, combineMin, ofNat_bne_negone]
            | some a =>
                simp only [optToInt, combineMin, ofNat_bne_negone, ofNat_beq_negone,
                  Nat.cast_lt, Bool.true_and, Bool.false_or]
                by_cases hlt : i < a <;> simp [hlt]
      rw [hstep, ih]
      rfl

lemma minFold_none_iff (cl : List Char) :
    ∀ (kws : List (List Char)) (acc : Option Nat),
      minFold cl kws acc = none ↔
        (acc = none ∧ ∀ kw ∈ kws, firstIndex? cl (lowerStr kw) = none) := by
  intro kws
  induction kws with
  | nil => intro acc; simp [minFold]
  | cons kw rest ih =>
      intro acc
      show minFold cl rest (combineMin acc (firstIndex? cl (lowerStr kw))) = none ↔ _
      rw [ih]
      cases hfi : firstIndex? cl (lowerStr kw) with
      | none =>
          cases acc <;> simp [combineMin, hfi]
      | some i =>
          cases acc <;> simp [combineMin, hfi]

lemma minFold_some_mem (cl : List Char) :
    ∀ (kws : List (List Char)) (acc : Option Nat) (n : Nat),
      minFold cl kws acc = some n →
        (acc = some n ∨ ∃ kw ∈ kws, firstIndex? cl (lowerStr kw) = some n) := by
  intro kws
  induction kws with
  | nil => intro acc n h; exact Or.inl h
  | cons kw rest ih =>
      intro acc n h
      have h' := ih (combineMin acc (firstIndex? cl (lowerStr kw))) n h
      rcases h' with hacc | ⟨kw2, hm, hfi⟩
      · cases hfi : firstIndex? cl (lowerStr kw) with
        | none =>
            cases acc with
            | none => simp [combineMin, hfi] at hacc
            | some a =>
                simp [combineMin, hfi] at hacc
                exact Or.inl (by rw [hacc])
        | some i =>
            cases acc with
            | none =>
                simp [combineMin, hfi] at hacc
                exact Or.inr ⟨kw, List.mem_cons_self kw rest, by rw [hfi, hacc]⟩
            | some a =>
                simp [combineMin, hfi] at hacc
                by_cases hlt : i < a
                · simp [hlt] at hacc
                  exact Or.inr ⟨kw, List.mem_cons_self kw rest, by rw [hfi, hacc]⟩
                · simp [hlt] at hacc
                  exact Or.inl (by rw [hacc])
      · exact Or.inr ⟨kw2, List.mem_cons_of_mem kw hm, hfi⟩

lemma minFold_some_le (cl : List Char) :
    ∀ (kws : List (List Char)) (acc : Option Nat) (n : Nat),
      minFold cl kws acc = some n →
        (∀ m, acc = some m → n ≤ m) ∧
        (∀ kw ∈ kws, ∀ j, firstIndex? cl (lowerStr kw) = some j → n ≤ j) := by
  intro kws
  induction kws with
  | nil =>
      intro acc n h
      refine ⟨?_, by simp⟩
      intro m hm
      rw [hm] at h
      simp [minFold] at h
      omega
  | cons kw rest ih =>
      intro acc n h
      have h' := ih (combineMin acc (firstIndex? cl (lowerStr kw))) n h
      obtain ⟨hAcc', hRest⟩ := h'
      have hAccNew : ∀ m, combineMin acc (firstIndex? cl (lowerStr kw)) = some m → n ≤ m := hAcc'
      constructor
      · intro m hm
        subst hm
        cases hfi : firstIndex? cl (lowerStr kw) with
        | none => exact hAccNew m (by simp [combineMin, hfi])
        | some i =>
            by_cases hlt : i < m
            · have := hAccNew i (by simp [combineMin, hfi, hlt])
              omega
            · exact hAccNew m (by simp [combineMin, hfi, hlt])
      · intro kw2 hm2 j hj
        rcases List.mem_cons.mp hm2 with rfl | hm2'
        · cases acc with
          | none =>
              exact hAccNew j (by simp [combineMin, hj])
          | some a =>
              by_cases hlt : j < a
              · exact hAccNew j (by simp [combineMin, hj, hlt])
              · have := hAccNew a (by simp [combineMin, hj, hlt])
                omega
        · exact hRest kw2 hm2' j hj

end Analysis

namespace Analysis

lemma strIncludes_iff_firstIndex (hay nd : List Char) :
    strIncludes hay nd = true ↔ ∃ i, firstIndex? hay nd = some i := by
  unfold strIncludes firstIndex?
  rw [List.any_eq_true]
  constructor
  · rintro ⟨i, hmem, hp⟩
    have : (List.find? (fun i => matchesAt hay nd i) (List.range (hay.length + 1))).isSome := by
      rw [List.find?_isSome]
      exact ⟨i, hmem, hp⟩
    exact Option.isSome_iff_exists.mp this
  · rintro ⟨i, hfind⟩
    exact ⟨i, List.mem_of_find?_eq_some hfind, List.find?_some hfind⟩

lemma matchesAt_lt_length (hay nd : List Char) (i : Nat)
    (hm : matchesAt hay nd i = true) (hnd : nd ≠ []) : i < hay.length := by
  unfold matchesAt at hm
  have heq : (hay.drop i).take nd.length = nd := by
    exact beq_iff_eq.mp hm
  have hlen : ((hay.drop i).take nd.length).length = nd.length := by rw [heq]
  rw [List.length_take, List.length_drop] at hlen
  have hpos : 0 < nd.length := List.length_pos.mpr hnd
  omega

lemma firstIndex_lt_length (hay nd : List Char) (i : Nat)
    (hfi : firstIndex? hay nd = some i) (hnd : nd ≠ []) : i < hay.length :=
  matchesAt_lt_length hay nd i (List.find?_some hfi) hnd

lemma ds_keywords_nonempty : ∀ kw ∈ DS_KEYWORDS, lowerStr kw ≠ [] := by decide

end Analysis

/-- Claim C4: on the lowered content, detectMentions reports mentioned
exactly when some keyword of DS_KEYWORDS occurs; position is 0 exactly when
not mentioned; and when mentioned there is an offset that is the earliest
first-occurrence index over the keyword list with position equal to the
quartile ceiling formula clamped to a minimum of 1, hence in 1..4. -/
theorem c4_detectMentions_spec (content : List Char) :
    ((Analysis.detectMentions (lowerStr content)).mentioned = true ↔
      ∃ kw ∈ Analysis.DS_KEYWORDS, strIncludes (lowerStr content) (lowerStr kw) = true) ∧
    ((Analysis.detectMentions (lowerStr content)).position = 0 ↔
      (Analysis.detectMentions (lowerStr content)).mentioned = false) ∧
    ((Analysis.detectMentions (lowerStr content)).mentioned = true →
      ∃ off : Nat,
        (∃ kw ∈ Analysis.DS_KEYWORDS,
          strIndexOf (lowerStr content) (lowerStr kw) = (off : Int)) ∧
        (∀ kw ∈ Analysis.DS_KEYWORDS, ∀ j : Nat,
          strIndexOf (lowerStr content) (lowerStr kw) = (j : Int) → off ≤ j) ∧
        (Analysis.detectMentions (lowerStr content)).position =
          max 1 ((4 * off + max (lowerStr content).length 1 - 1) /
            max (lowerStr content).length 1) ∧
        1 ≤ (Analysis.detectMentions (lowerStr content)).position ∧
        (Analysis.detectMentions (lowerStr content)).position ≤ 4) := by
  set cl := lowerStr content with hcl
  have hloop : Analysis.detectMentionsLoop cl Analysis.DS_KEYWORDS (-1) =
      Analysis.optToInt (Analysis.minFold cl Analysis.DS_KEYWORDS none) :=
    Analysis.detectMentionsLoop_eq_minFold cl Analysis.DS_KEYWORDS none
  cases hmf : Analysis.minFold cl Analysis.DS_KEYWORDS none with
  | none =>
      have hment : Analysis.detectMentions cl = ⟨false, 0⟩ := by
        unfold Analysis.detectMentions
        rw [hloop, hmf]
        rfl
      rw [hment]
      refine ⟨?_, by simp, by simp⟩
      simp only [Bool.false_eq_true, false_iff]
      rintro ⟨kw, hkw, hinc⟩
      obtain ⟨i, hfi⟩ := (Analysis.strIncludes_iff_firstIndex cl (lowerStr kw)).mp hinc
      have := (Analysis.minFold_none_iff cl Analysis.DS_KEYWORDS none).mp hmf
      rw [this.2 kw hkw] at hfi
      cases hfi
  | some off =>
      have hmem := Analysis.minFold_some_mem cl Analysis.DS_KEYWORDS none off hmf
      rcases hmem with h | ⟨kw0, hkw0, hfi0⟩
      · cases h
      have hle := (Analysis.minFold_some_le cl Analysis.DS_KEYWORDS none off hmf).2
      have hne0 : (Analysis.optToInt (some off) == (-1 : Int)) = false :=
        Analysis.ofNat_beq_negone off
      have hoff_lt : off < cl.length :=
        Analysis.firstIndex_lt_length cl (lowerStr kw0) off hfi0
          (Analysis.ds_keywords_nonempty kw0 hkw0)
      have hlen_pos : 0 < cl.length := by omega
      have hd : max cl.length 1 = cl.length := by omega
      have hment : Analysis.detectMentions cl =
          ⟨true, if ((4 * off + max cl.length 1 - 1) / max cl.length 1) == 0 then 1
                 else ((4 * off + max cl.length 1 - 1) / max cl.length 1)⟩ := by
        unfold Analysis.detectMentions
        rw [hloop, hmf]
        simp only [Analysis.optToInt, hne0, Bool.false_eq_true, if_false]
        rfl
      have hposmax : (if ((4 * off + max cl.length 1 - 1) / max cl.length 1) == 0 then (1 : Nat)
          else ((4 * off + max cl.length 1 - 1) / max cl.length 1)) =
          max 1 ((4 * off + max cl.length 1 - 1) / max cl.length 1) := by
        rcases Nat.eq_zero_or_pos ((4 * off + max cl.length 1 - 1) / max cl.length 1)
          with h0 | hpos
        · simp [h0]
        · have hb : (((4 * off + max cl.length 1 - 1) / max cl.length 1) == 0) = false := by
            simp
            omega
          rw [hb]
          simp
          omega
      have hple4 : (4 * off + max cl.length 1 - 1) / max cl.length 1 ≤ 4 := by
        rw [hd]
        have h5 : 4 * off + cl.length - 1 < 5 * cl.length := by omega
        have := (Nat.div_lt_iff_lt_mul hlen_pos).mpr (by omega :
          4 * off + cl.length - 1 < 5 * cl.length)
        omega
      rw [hment, hposmax]
      have hge1 := Nat.le_max_left 1 ((4 * off + max cl.length 1 - 1) / max cl.length 1)
      refine ⟨?_, ?_, ?_⟩
      · simp only [true_iff]
        exact ⟨kw0, hkw0, (Analysis.strIncludes_iff_firstIndex cl (lowerStr kw0)).mpr ⟨off, hfi0⟩⟩
      · constructor
        · intro h
          exfalso
          have h' : max 1 ((4 * off + max cl.length 1 - 1) / max cl.length 1) = 0 := h
          omega
        · intro h
          have h2 : (true : Bool) = false := h
          simp at h2
      · intro _
        refine ⟨off, ?_, ?_, rfl, Nat.le_max_left _ _, ?_⟩
        · exact ⟨kw0, hkw0, by rw [Analysis.strIndexOf_eq_optToInt, hfi0]; rfl⟩
        · intro kw hkw j hj
          rw [Analysis.strIndexOf_eq_optToInt] at hj
          cases hfi : firstIndex? cl (lowerStr kw) with
          | none =>
              exfalso
              rw [hfi] at hj
              have hj2 : (-1 : Int) = (j : Int) := hj
              omega
          | some i =>
              rw [hfi] at hj
              have hj2 : ((i : Int)) = (j : Int) := hj
              have hij : i = j := by exact_mod_cast hj2
              have := hle kw hkw i hfi
              omega
        · show max 1 ((4 * off + max cl.length 1 - 1) / max cl.length 1) ≤ 4
          omega

/-- Witness for claim C4 at a concrete content with a keyword at offset 0. -/
theorem c4_witness :
    ∃ off : Nat,
      (∃ kw ∈ Analysis.DS_KEYWORDS,
        strIndexOf (lowerStr "VEDA is great".toList) (lowerStr kw) = (off : Int)) ∧
      (∀ kw ∈ Analysis.DS_KEYWORDS, ∀ j : Nat,
        strIndexOf (lowerStr "VEDA is great".toList) (lowerStr kw) = (j : Int) → off ≤ j) ∧
      (Analysis.detectMentions (lowerStr "VEDA is great".toList)).position =
        max 1 ((4 * off + max (lowerStr "VEDA is great".toList).length 1 - 1) /
          max (lowerStr "VEDA is great".toList).length 1) ∧
      1 ≤ (Analysis.detectMentions (lowerStr "VEDA is great".toList)).position ∧
      (Analysis.detectMentions (lowerStr "VEDA is great".toList)).position ≤ 4 :=
  (c4_detectMentions_spec "VEDA is great".toList).2.2 (by decide)

lemma foldME_congr_pure {σ α : Type} (f : σ → α → Except Unit σ) (g : σ → α → σ)
    (l : List α) (h : ∀ a ∈ l, ∀ s, f s a = .ok (g s a)) :
    ∀ s, foldME f s l = .ok (l.foldl g s) := by
  induction l with
  | nil => intro s; rfl
  | cons x xs ih =>
      intro s
      have hx := h x (List.mem_cons_self x xs) s
      show (f s x >>= fun s' => foldME f s' xs) = _
      rw [hx]
      show foldME f (g s x) xs = _
      rw [ih (fun a ha s => h a (List.mem_cons_of_mem x ha) s) (g s x)]
      rfl

lemma jsOr_str_empty (s : List Char) : jsOr (.str s) (.str []) = .str s := by
  cases s <;> simp [jsOr, JSVal.truthy]

lemma jsOr_arr (xs : List JSVal) (d : JSVal) : jsOr (.arr xs) d = .arr xs := by
  simp [jsOr, JSVal.truthy]

@[simp] lemma okBind {α β : Type} (a : α) (k : α → Except Unit β) :
    (Except.ok a : Except Unit α) >>= k = k a := rfl

@[simp] lemma jsIter_arr (xs : List JSVal) : jsIter (.arr xs) = .ok xs := rfl

@[simp] lemma jsArrayMethod_arr (xs : List JSVal) : jsArrayMethod (.arr xs) = .ok xs := rfl

@[simp] lemma jsToLowerCase_str (s : List Char) : jsToLowerCase (.str s) = .ok (lowerStr s) := rfl

@[simp] lemma jsIncludesStr_str (s nd : List Char) :
    jsIncludesStr (.str s) nd = .ok (strIncludes s nd) := rfl

@[simp] lemma truthy_str (s : List Char) : (JSVal.str s).truthy = !s.isEmpty := rfl

@[simp] lemma getProp_obj (fs : List (String × JSVal)) (k : String) :
    (JSVal.obj fs).getProp k = .ok (objGet fs k) := rfl

lemma srStep_eq (acc : List JSVal) (sr : StrictSearchResult) :
    (do
      let u ← (JSVal.obj [("title", JSVal.str sr.title), ("url", JSVal.str sr.url),
        ("snippet", JSVal.str sr.snippet)]).getProp "url"
      if u.truthy then do
        let b ← jsIncludesStr u Analysis.DS_DOMAIN
        pure (if b then Analysis.addToSet acc u else acc)
      else pure acc) =
    .ok (if !sr.url.isEmpty && strIncludes sr.url Analysis.DS_DOMAIN
         then Analysis.addToSet acc (.str sr.url) else acc) := by
  have hu : objGet [("title", JSVal.str sr.title), ("url", JSVal.str sr.url),
      ("snippet", JSVal.str sr.snippet)] "url" = JSVal.str sr.url := rfl
  simp only [getProp_obj, okBind, hu, truthy_str, jsIncludesStr_str]
  by_cases he : sr.url.isEmpty <;> by_cases hi : strIncludes sr.url Analysis.DS_DOMAIN <;>
    simp [he, hi] <;> rfl

lemma foldME_map_pure {σ α β : Type} (f : σ → β → Except Unit σ) (m : α → β)
    (g : σ → α → σ) (l : List α)
    (h : ∀ a ∈ l, ∀ s, f s (m a) = .ok (g s a)) (s : σ) :
    foldME f s (l.map m) = .ok (l.foldl g s) := by
  induction l generalizing s with
  | nil => rfl
  | cons x xs ih =>
      show (f s (m x) >>= fun s' => foldME f s' (xs.map m)) = _
      rw [h x (List.mem_cons_self x xs) s]
      show foldME f (g s x) (xs.map m) = _
      rw [ih (fun a ha s => h a (List.mem_cons_of_mem x ha) s) (g s x)]
      rfl

lemma extractDsPages_strict (cits : List (List Char)) (srs : List StrictSearchResult) :
    Analysis.extractDsPages (.arr (cits.map JSVal.str))
      (.arr (srs.map (fun sr => JSVal.obj
        [("title", .str sr.title), ("url", .str sr.url), ("snippet", .str sr.snippet)]))) =
      .ok (dsPagesStrict cits srs) := by
  unfold Analysis.extractDsPages
  simp only [jsIter_arr, okBind]
  rw [List.foldl_map]
  rw [foldME_map_pure _ _
    (fun acc sr => if !sr.url.isEmpty && strIncludes sr.url Analysis.DS_DOMAIN
         then Analysis.addToSet acc (.str sr.url) else acc)
    srs (fun sr _ acc => srStep_eq acc sr) _]
  rfl

/-- The analyzer, run on any well-typed normalized result, succeeds and
computes the pure analysis. -/
lemma analyzeResponse_strict (r : StrictResult) :
    Analysis.analyzeResponse (StrictResult.toInput r) = .ok (analyzeStrict r) := by
  unfold Analysis.analyzeResponse StrictResult.toInput StrictResult.toNormalized
    Orchestrator.NormalizedResult.toAnalyzerInput
  simp only [jsOr_str_empty, jsOr_arr, jsToLowerCase_str, okBind, List.map_map]
  have hE : Analysis.extractDsPages (JSVal.arr (List.map JSVal.str r.citations))
      (JSVal.arr (List.map (Orchestrator.SearchResultV.toJSVal ∘ fun sr =>
        (⟨JSVal.str sr.title, JSVal.str sr.url, JSVal.str sr.snippet⟩ : SearchResultV))
        r.searchResults)) =
      .ok (dsPagesStrict r.citations r.searchResults) :=
    extractDsPages_strict r.citations r.searchResults
  rw [hE]
  rfl

/-- Claim C5: for every well-typed normalized result the analyzer succeeds,
recommended equals mentioned AND the whole-document recommendation check, the
check holds exactly when some lexicon word occurs anywhere in the lowered
content (independent of any distance to the mention), and recommended is
false whenever mentioned is false. -/
theorem c5_recommended_spec (r : StrictResult) :
    Analysis.analyzeResponse (StrictResult.toInput r) = .ok (analyzeStrict r) ∧
    (analyzeStrict r).recommended =
      ((analyzeStrict r).mentioned && Analysis.detectRecommendation (lowerStr r.content)) ∧
    (Analysis.detectRecommendation (lowerStr r.content) = true ↔
      ∃ w ∈ Analysis.RECOMMENDATION_WORDS,
        strIncludes (lowerStr r.content) (lowerStr w) = true) ∧
    ((analyzeStrict r).mentioned = false → (analyzeStrict r).recommended = false) := by
  have hrec : (analyzeStrict r).recommended =
      (if (Analysis.detectMentions (lowerStr r.content)).mentioned = true
       then Analysis.detectRecommendation (lowerStr r.content) else false) := rfl
  have hm : (analyzeStrict r).mentioned =
      (Analysis.detectMentions (lowerStr r.content)).mentioned := rfl
  refine ⟨analyzeResponse_strict r, ?_, ?_, ?_⟩
  · rw [hrec, hm]
    cases (Analysis.detectMentions (lowerStr r.content)).mentioned <;> simp
  · rw [Analysis.detectRecommendation]
    exact List.any_eq_true
  · intro h
    rw [hrec]
    rw [hm] at h
    simp [h]

/-- Witness for claim C5 at a content with no tracked keyword. -/
theorem c5_witness :
    Analysis.analyzeResponse (StrictResult.toInput ⟨"gdal is a tool".toList, [], [], 0, 0, 0⟩) =
      .ok (analyzeStrict ⟨"gdal is a tool".toList, [], [], 0, 0, 0⟩) ∧
    (analyzeStrict ⟨"gdal is a tool".toList, [], [], 0, 0, 0⟩).recommended = false :=
  ⟨(c5_recommended_spec ⟨"gdal is a tool".toList, [], [], 0, 0, 0⟩).1,
   (c5_recommended_spec ⟨"gdal is a tool".toList, [], [], 0, 0, 0⟩).2.2.2 (by decide)⟩

lemma addToSet_str (acc : List JSVal) (hstr : IsStrList acc) (s : List Char) :
    IsStrList (Analysis.addToSet acc (.str s)) ∧
    (acc.Nodup → (Analysis.addToSet acc (.str s)).Nodup) ∧
    (∀ v, v ∈ Analysis.addToSet acc (.str s) ↔ v ∈ acc ∨ v = .str s) := by
  unfold Analysis.addToSet
  cases hany : acc.any (fun x => x.sameValueZero (.str s)) with
  | true =>
      obtain ⟨x, hx, hsv⟩ := List.any_eq_true.mp hany
      obtain ⟨t, rfl⟩ := hstr x hx
      have ht : t = s := by simpa [JSVal.sameValueZero] using hsv
      subst ht
      simp only [hany, if_true]
      refine ⟨hstr, fun h => h, ?_⟩
      intro v
      constructor
      · exact Or.inl
      · rintro (h | rfl)
        · exact h
        · exact hx
  | false =>
      simp only [hany, Bool.false_eq_true, if_false]
      have hnotmem : JSVal.str s ∉ acc := by
        intro hmem
        have : acc.any (fun x => x.sameValueZero (.str s)) = true :=
          List.any_eq_true.mpr ⟨.str s, hmem, by simp [JSVal.sameValueZero]⟩
        rw [hany] at this
        cases this
      refine ⟨?_, ?_, ?_⟩
      · intro v hv
        rcases List.mem_append.mp hv with h | h
        · exact hstr v h
        · exact ⟨s, List.mem_singleton.mp h⟩
      · intro hnd
        rw [List.nodup_append]
        exact ⟨hnd, List.nodup_singleton _, by simpa using hnotmem⟩
      · intro v
        rw [List.mem_append, List.mem_singleton]

lemma citFold_spec (cits : List (List Char)) :
    ∀ acc : List JSVal, IsStrList acc → acc.Nodup →
      IsStrList (cits.foldl (fun acc s =>
        if strIncludes s Analysis.DS_DOMAIN then Analysis.addToSet acc (.str s) else acc) acc) ∧
      (cits.foldl (fun acc s =>
        if strIncludes s Analysis.DS_DOMAIN then Analysis.addToSet acc (.str s) else acc)
        acc).Nodup ∧
      (∀ v, v ∈ cits.foldl (fun acc s =>
          if strIncludes s Analysis.DS_DOMAIN then Analysis.addToSet acc (.str s) else acc) acc ↔
        v ∈ acc ∨ ∃ s ∈ cits, v = .str s ∧ strIncludes s Analysis.DS_DOMAIN = true) := by
  induction cits with
  | nil =>
      intro acc hstr hnd
      refine ⟨hstr, hnd, ?_⟩
      simp
  | cons c rest ih =>
      intro acc hstr hnd
      rw [List.foldl_cons]
      by_cases hc : strIncludes c Analysis.DS_DOMAIN
      · obtain ⟨hstr', hnd', hmem'⟩ := addToSet_str acc hstr c
        obtain ⟨hstrF, hndF, hmemF⟩ := ih (Analysis.addToSet acc (.str c)) hstr' (hnd' hnd)
        rw [if_pos hc]
        refine ⟨hstrF, hndF, ?_⟩
        intro v
        rw [hmemF v, hmem' v]
        constructor
        · rintro ((h | rfl) | ⟨s, hs, rfl, hinc⟩)
          · exact Or.inl h
          · exact Or.inr ⟨c, List.mem_cons_self c rest, rfl, hc⟩
          · exact Or.inr ⟨s, List.mem_cons_of_mem c hs, rfl, hinc⟩
        · rintro (h | ⟨s, hs, rfl, hinc⟩)
          · exact Or.inl (Or.inl h)
          · rcases List.mem_cons.mp hs with rfl | hs'
            · exact Or.inl (Or.inr rfl)
            · exact Or.inr ⟨s, hs', rfl, hinc⟩
      · rw [if_neg hc]
        obtain ⟨hstrF, hndF, hmemF⟩ := ih acc hstr hnd
        refine ⟨hstrF, hndF, ?_⟩
        intro v
        rw [hmemF v]
        constructor
        · rintro (h | ⟨s, hs, rfl, hinc⟩)
          · exact Or.inl h
          · exact Or.inr ⟨s, List.mem_cons_of_mem c hs, rfl, hinc⟩
        · rintro (h | ⟨s, hs, rfl, hinc⟩)
          · exact Or.inl h
          · rcases List.mem_cons.mp hs with rfl | hs'
            · exact absurd hinc hc
            · exact Or.inr ⟨s, hs', rfl, hinc⟩

lemma srFold_spec (srs : List StrictSearchResult) :
    ∀ acc : List JSVal, IsStrList acc → acc.Nodup →
      IsStrList (srs.foldl (fun acc sr =>
        if !sr.url.isEmpty && strIncludes sr.url Analysis.DS_DOMAIN
        then Analysis.addToSet acc (.str sr.url) else acc) acc) ∧
      (srs.foldl (fun acc sr =>
        if !sr.url.isEmpty && strIncludes sr.url Analysis.DS_DOMAIN
        then Analysis.addToSet acc (.str sr.url) else acc) acc).Nodup ∧
      (∀ v, v ∈ srs.foldl (fun acc sr =>
          if !sr.url.isEmpty && strIncludes sr.url Analysis.DS_DOMAIN
          then Analysis.addToSet acc (.str sr.url) else acc) acc ↔
        v ∈ acc ∨ ∃ sr ∈ srs, v = .str sr.url ∧ sr.url ≠ [] ∧
          strIncludes sr.url Analysis.DS_DOMAIN = true) := by
  induction srs with
  | nil =>
      intro acc hstr hnd
      refine ⟨hstr, hnd, ?_⟩
      simp
  | cons c rest ih =>
      intro acc hstr hnd
      rw [List.foldl_cons]
      by_cases hc : (!c.url.isEmpty && strIncludes c.url Analysis.DS_DOMAIN) = true
      · obtain ⟨hstr', hnd', hmem'⟩ := addToSet_str acc hstr c.url
        obtain ⟨hstrF, hndF, hmemF⟩ := ih (Analysis.addToSet acc (.str c.url)) hstr' (hnd' hnd)
        rw [if_pos hc]
        have hcc := hc
        rw [Bool.and_eq_true, Bool.not_eq_true'] at hcc
        have hne : c.url ≠ [] := by
          intro h
          rw [h] at hcc
          simp at hcc
        refine ⟨hstrF, hndF, ?_⟩
        intro v
        rw [hmemF v, hmem' v]
        constructor
        · rintro ((h | rfl) | ⟨sr, hs, rfl, hneu, hinc⟩)
          · exact Or.inl h
          · exact Or.inr ⟨c, List.mem_cons_self c rest, rfl, hne, hcc.2⟩
          · exact Or.inr ⟨sr, List.mem_cons_of_mem c hs, rfl, hneu, hinc⟩
        · rintro (h | ⟨sr, hs, rfl, hneu, hinc⟩)
          · exact Or.inl (Or.inl h)
          · rcases List.mem_cons.mp hs with rfl | hs'
            · exact Or.inl (Or.inr rfl)
            · exact Or.inr ⟨sr, hs', rfl, hneu, hinc⟩
      · rw [if_neg hc]
        obtain ⟨hstrF, hndF, hmemF⟩ := ih acc hstr hnd
        refine ⟨hstrF, hndF, ?_⟩
        intro v
        rw [hmemF v]
        constructor
        · rintro (h | ⟨sr, hs, rfl, hneu, hinc⟩)
          · exact Or.inl h
          · exact Or.inr ⟨sr, List.mem_cons_of_mem c hs, rfl, hneu, hinc⟩
        · rintro (h | ⟨sr, hs, rfl, hneu, hinc⟩)
          · exact Or.inl h
          · rcases List.mem_cons.mp hs with rfl | hs'
            · exfalso
              apply hc
              rw [Bool.and_eq_true, Bool.not_eq_true']
              exact ⟨by simpa using hneu, hinc⟩
            · exact Or.inr ⟨sr, hs', rfl, hneu, hinc⟩

lemma dsPagesStrict_spec (cits : List (List Char)) (srs : List StrictSearchResult) :
    (dsPagesStrict cits srs).Nodup ∧
    ∀ v, v ∈ dsPagesStrict cits srs ↔
      (∃ s ∈ cits, v = .str s ∧ strIncludes s Analysis.DS_DOMAIN = true) ∨
      (∃ sr ∈ srs, v = .str sr.url ∧ sr.url ≠ [] ∧
        strIncludes sr.url Analysis.DS_DOMAIN = true) := by
  obtain ⟨hstr1, hnd1, hmem1⟩ :=
    citFold_spec cits [] (by intro v hv; cases hv) List.nodup_nil
  obtain ⟨hstr2, hnd2, hmem2⟩ := srFold_spec srs _ hstr1 hnd1
  refine ⟨hnd2, ?_⟩
  intro v
  unfold dsPagesStrict
  rw [hmem2 v, hmem1 v]
  simp only [List.not_mem_nil, false_or]

/-- Claim C2 (amended): for every well-typed normalized result the analyzer
succeeds; citationCount equals the length of dsPages; dsPages has no
duplicates; and membership in dsPages is exactly: citation URLs containing
the substring developmentseed.org, together with nonempty search-result URLs
containing that substring — a substring test, not the host test the claim
states (see the counterexample). -/
theorem c2_dsPages_spec (r : StrictResult) :
    Analysis.analyzeResponse (StrictResult.toInput r) = .ok (analyzeStrict r) ∧
    (analyzeStrict r).citationCount = (analyzeStrict r).dsPages.length ∧
    (analyzeStrict r).dsPages.Nodup ∧
    (∀ v, v ∈ (analyzeStrict r).dsPages ↔
      (∃ s ∈ r.citations, v = .str s ∧ strIncludes s Analysis.DS_DOMAIN = true) ∨
      (∃ sr ∈ r.searchResults, v = .str sr.url ∧ sr.url ≠ [] ∧
        strIncludes sr.url Analysis.DS_DOMAIN = true)) := by
  have hds : (analyzeStrict r).dsPages = dsPagesStrict r.citations r.searchResults := rfl
  obtain ⟨hnd, hmem⟩ := dsPagesStrict_spec r.citations r.searchResults
  exact ⟨analyzeResponse_strict r, rfl, by rw [hds]; exact hnd, by rw [hds]; exact hmem⟩

/-- Claim C2, counterexample: a URL whose host is example.com but whose path
contains developmentseed.org is included in dsPages, refuting the host-match
reading of the claim. -/
theorem c2_counterexample :
    Analysis.extractDsPages
      (.arr [.str "https://example.com/developmentseed.org".toList]) (.arr []) =
      .ok [.str "https://example.com/developmentseed.org".toList] ∧
    urlHostSpec "https://example.com/developmentseed.org".toList ≠ Analysis.DS_DOMAIN := by
  constructor
  · rfl
  · decide

@[simp] lemma errBind {α β : Type} (k : α → Except Unit β) :
    (Except.error () : Except Unit α) >>= k = .error () := rfl

lemma foldME_inv {σ α : Type} (P : σ → Prop) (f : σ → α → Except Unit σ)
    (hf : ∀ s a s', f s a = .ok s' → P s → P s') :
    ∀ (l : List α) (s s'), foldME f s l = .ok s' → P s → P s' := by
  intro l
  induction l with
  | nil =>
      intro s s' h hP
      cases h
      exact hP
  | cons x xs ih =>
      intro s s' h hP
      cases hx : f s x with
      | error e =>
          rw [show foldME f s (x :: xs) = f s x >>= fun s1 => foldME f s1 xs from rfl, hx] at h
          cases h
      | ok s1 =>
          rw [show foldME f s (x :: xs) = f s x >>= fun s1 => foldME f s1 xs from rfl, hx] at h
          exact ih s1 s' h (hf s x s1 hx hP)

lemma addToSet_pairwise (acc : List JSVal) (v : JSVal)
    (h : PairwiseDistinct acc) : PairwiseDistinct (Analysis.addToSet acc v) := by
  unfold Analysis.addToSet
  cases hany : acc.any (fun x => x.sameValueZero v) with
  | true => simpa [hany] using h
  | false =>
      simp only [hany, Bool.false_eq_true, if_false]
      rw [PairwiseDistinct, List.pairwise_append]
      refine ⟨h, List.pairwise_singleton _ _, ?_⟩
      intro a ha b hb
      rw [List.mem_singleton] at hb
      subst hb
      have := List.any_eq_false.mp (by rw [hany]) a ha
      simpa using this

lemma processAnn_inv (s : ChatGPT.NormState) (ann : JSVal) (s' : ChatGPT.NormState)
    (h : ChatGPT.processAnn s ann = .ok s')
    (hP : PairwiseDistinct s.citationSet) : PairwiseDistinct s'.citationSet := by
  unfold ChatGPT.processAnn at h
  cases ht : ann.getProp "type" with
  | error e => rw [ht] at h; cases e; cases h
  | ok t =>
      rw [ht] at h
      simp only [okBind] at h
      split at h
      · cases hu : ann.getProp "url" with
        | error e => rw [hu] at h; cases e; cases h
        | ok u =>
            rw [hu] at h
            simp only [okBind] at h
            split at h
            · cases hti : ann.getProp "title" with
              | error e => rw [hti] at h; cases e; cases h
              | ok ti =>
                  rw [hti] at h
                  simp only [okBind] at h
                  cases h
                  exact addToSet_pairwise _ _ hP
            · cases h
              exact hP
      · cases h
        exact hP

lemma processPart_inv (s : ChatGPT.NormState) (part : JSVal) (s' : ChatGPT.NormState)
    (h : ChatGPT.processPart s part = .ok s')
    (hP : PairwiseDistinct s.citationSet) : PairwiseDistinct s'.citationSet := by
  unfold ChatGPT.processPart at h
  cases ht : part.getProp "type" with
  | error e => rw [ht] at h; cases e; cases h
  | ok t =>
      rw [ht] at h
      simp only [okBind] at h
      split at h
      · cases htx : part.getProp "text" with
        | error e => rw [htx] at h; cases e; cases h
        | ok tx =>
            rw [htx] at h
            simp only [okBind] at h
            cases han : part.getProp "annotations" with
            | error e => rw [han] at h; cases e; cases h
            | ok annsRaw =>
                rw [han] at h
                simp only [okBind] at h
                cases hit : jsIter (jsOr annsRaw (.arr [])) with
                | error e => rw [hit] at h; cases e; cases h
                | ok anns =>
                    rw [hit] at h
                    simp only [okBind] at h
                    exact foldME_inv (fun st => PairwiseDistinct st.citationSet) _
                      processAnn_inv anns _ s' h hP
      · cases h
        exact hP

lemma processMsg_inv (s : ChatGPT.NormState) (msg : JSVal) (s' : ChatGPT.NormState)
    (h : ChatGPT.processMsg s msg = .ok s')
    (hP : PairwiseDistinct s.citationSet) : PairwiseDistinct s'.citationSet := by
  unfold ChatGPT.processMsg at h
  cases hc : msg.getProp "content" with
  | error e => rw [hc] at h; cases e; cases h
  | ok partsRaw =>
      rw [hc] at h
      simp only [okBind] at h
      cases hit : jsIter (jsOr partsRaw (.arr [])) with
      | error e => rw [hit] at h; cases e; cases h
      | ok parts =>
          rw [hit] at h
          simp only [okBind] at h
          exact foldME_inv (fun st => PairwiseDistinct st.citationSet) _
            processPart_inv parts _ s' h hP

lemma chatgpt_citations_pairwise (data : List (String × JSVal)) (r : NormalizedResult)
    (h : ChatGPT.normalizeResponse data = .ok r) : PairwiseDistinct r.citations := by
  unfold ChatGPT.normalizeResponse at h
  cases ho : jsArrayMethod (jsOr (objGet data "output") (.arr [])) with
  | error e => rw [ho] at h; cases e; cases h
  | ok output =>
      rw [ho] at h
      simp only [okBind] at h
      cases hf : filterME (fun item => do
          let t ← item.getProp "type"
          pure (t.sameValueZero (.str "message".toList))) output with
      | error e => rw [hf] at h; cases e; cases h
      | ok messageItems =>
          rw [hf] at h
          simp only [okBind] at h
          cases hs : foldME ChatGPT.processMsg ⟨.str [], [], []⟩ messageItems with
          | error e => rw [hs] at h; cases e; cases h
          | ok st =>
              rw [hs] at h
              simp only [okBind] at h
              cases hit : (jsOr (objGet data "usage") (.obj [])).getProp "input_tokens" with
              | error e => rw [hit] at h; cases e; cases h
              | ok it =>
                  rw [hit] at h
                  simp only [okBind] at h
                  cases hot : (jsOr (objGet data "usage") (.obj [])).getProp "output_tokens" with
                  | error e => rw [hot] at h; cases e; cases h
                  | ok ot =>
                      rw [hot] at h
                      simp only [okBind] at h
                      cases h
                      have hinit : PairwiseDistinct
                          (ChatGPT.NormState.citationSet ⟨.str [], [], []⟩) :=
                        List.Pairwise.nil
                      exact foldME_inv (fun st => PairwiseDistinct st.citationSet) _
                        processMsg_inv messageItems _ st hs hinit

lemma perplexity_citations_passthrough (data : List (String × JSVal)) (r : NormalizedResult)
    (h : Perplexity.normalizeResponse data = .ok r) :
    r.citations = Perplexity.rawCitations data := by
  unfold Perplexity.normalizeResponse at h
  cases hm : mapME (fun r => do
      let t ← r.getProp "title"
      let u ← r.getProp "url"
      let sn ← r.getProp "snippet"
      pure (⟨jsOr t (.str []), jsOr u (.str []), jsOr sn (.str [])⟩ : SearchResultV))
    (Perplexity.rawSearchResults data) with
  | error e => rw [hm] at h; cases e; cases h
  | ok srs =>
      rw [hm] at h
      simp only [okBind] at h
      cases hp : (jsOr (objGet data "usage") (.obj [])).getProp "prompt_tokens" with
      | error e => rw [hp] at h; cases e; cases h
      | ok pt =>
          rw [hp] at h
          simp only [okBind] at h
          cases hc : (jsOr (objGet data "usage") (.obj [])).getProp "completion_tokens" with
          | error e => rw [hc] at h; cases e; cases h
          | ok ct =>
              rw [hc] at h
              simp only [okBind] at h
              cases htt : (jsOr (objGet data "usage") (.obj [])).getProp "total_tokens" with
              | error e => rw [htt] at h; cases e; cases h
              | ok tt =>
                  rw [htt] at h
                  simp only [okBind] at h
                  cases h
                  rfl

/-- Claim C3 (amended): the ChatGPT normalizer's citations are pairwise
distinct under SameValueZero (the Set dedup), and a payload with two
url_citation annotations for one URL yields that URL once (searchResults
keeping both entries); the Perplexity normalizer returns the payload's
citations array unchanged, so it does not deduplicate (see the
counterexample). -/
theorem c3_citations_dedup :
    (∀ (data : List (String × JSVal)) (r : NormalizedResult),
      ChatGPT.normalizeResponse data = .ok r → PairwiseDistinct r.citations) ∧
    (∀ (data : List (String × JSVal)) (r : NormalizedResult),
      Perplexity.normalizeResponse data = .ok r →
        r.citations = Perplexity.rawCitations data) ∧
    (∃ r, ChatGPT.normalizeResponse chatgptDupPayload = .ok r ∧
      r.citations = [.str "https://example.com".toList] ∧
      r.searchResults.length = 2) := by
  refine ⟨chatgpt_citations_pairwise, perplexity_citations_passthrough, ?_⟩
  refine ⟨⟨.str "t".toList, [.str "https://example.com".toList],
    [⟨.str "Example".toList, .str "https://example.com".toList, .str []⟩,
     ⟨.str "Example again".toList, .str "https://example.com".toList, .str []⟩],
    ⟨.num 10, .num 20, .num 30⟩⟩, ?_, rfl, rfl⟩
  rfl

/-- Claim C3, counterexample: a Perplexity payload whose citations list
holds the same URL twice normalizes to a citations list still holding it
twice, refuting the claim that every provider deduplicates. -/
theorem c3_counterexample :
    Perplexity.normalizeResponse
      [("citations", .arr [.str "https://a.example".toList, .str "https://a.example".toList])] =
      .ok ⟨.str [], [.str "https://a.example".toList, .str "https://a.example".toList], [],
        ⟨.num 0, .num 0, .num 0⟩⟩ ∧
    ¬ ([JSVal.str "https://a.example".toList,
        JSVal.str "https://a.example".toList].Nodup) := by
  constructor
  · rfl
  · simp [List.nodup_cons]

/-- Witness for claim C3: the pairwise-distinctness applied to the concrete
duplicate-annotation payload. -/
theorem c3_witness :
    PairwiseDistinct [JSVal.str "https://example.com".toList] := by
  have h := (c3_citations_dedup).1 chatgptDupPayload
    ⟨.str "t".toList, [.str "https://example.com".toList],
      [⟨.str "Example".toList, .str "https://example.com".toList, .str []⟩,
       ⟨.str "Example again".toList, .str "https://example.com".toList, .str []⟩],
      ⟨.num 10, .num 20, .num 30⟩⟩ (by rfl)
  exact h

lemma foldME_ok {σ α : Type} (f : σ → α → Except Unit σ) (l : List α)
    (h : ∀ a ∈ l, ∀ s, ∃ s', f s a = .ok s') :
    ∀ s, ∃ s', foldME f s l = .ok s' := by
  induction l with
  | nil => intro s; exact ⟨s, rfl⟩
  | cons x xs ih =>
      intro s
      obtain ⟨s1, hs1⟩ := h x (List.mem_cons_self x xs) s
      obtain ⟨s', hs'⟩ := ih (fun a ha s => h a (List.mem_cons_of_mem x ha) s) s1
      refine ⟨s', ?_⟩
      show (f s x >>= fun s1 => foldME f s1 xs) = _
      rw [hs1]
      exact hs'

lemma mapME_ok {α β : Type} (f : α → Except Unit β) (l : List α)
    (h : ∀ a ∈ l, ∃ b, f a = .ok b) :
    ∃ bs, mapME f l = .ok bs := by
  induction l with
  | nil => exact ⟨[], rfl⟩
  | cons x xs ih =>
      obtain ⟨b, hb⟩ := h x (List.mem_cons_self x xs)
      obtain ⟨bs, hbs⟩ := ih (fun a ha => h a (List.mem_cons_of_mem x ha))
      refine ⟨b :: bs, ?_⟩
      show (f x >>= fun y => mapME f xs >>= fun ys => pure (y :: ys)) = _
      rw [hb]
      show (mapME f xs >>= fun ys => pure (b :: ys)) = _
      rw [hbs]
      rfl

lemma filterME_ok {α : Type} (p : α → Except Unit Bool) (l : List α)
    (h : ∀ a ∈ l, ∃ b, p a = .ok b) :
    ∃ ys, filterME p l = .ok ys := by
  induction l with
  | nil => exact ⟨[], rfl⟩
  | cons x xs ih =>
      obtain ⟨b, hb⟩ := h x (List.mem_cons_self x xs)
      obtain ⟨ys, hys⟩ := ih (fun a ha => h a (List.mem_cons_of_mem x ha))
      refine ⟨if b then x :: ys else ys, ?_⟩
      show (p x >>= fun b => filterME p xs >>= fun rest => pure (if b then x :: rest else rest)) = _
      rw [hb]
      show (filterME p xs >>= fun rest => pure (if b then x :: rest else rest)) = _
      rw [hys]
      rfl

lemma filterME_mem {α : Type} (p : α → Except Unit Bool) :
    ∀ (l : List α) (ys : List α), filterME p l = .ok ys → ∀ y ∈ ys, y ∈ l := by
  intro l
  induction l with
  | nil =>
      intro ys h y hy
      cases h
      cases hy
  | cons x xs ih =>
      intro ys h y hy
      cases hb : p x with
      | error e =>
          rw [show filterME p (x :: xs) =
            (p x >>= fun b => filterME p xs >>= fun rest =>
              pure (if b then x :: rest else rest)) from rfl, hb] at h
          cases e
          cases h
      | ok b =>
          rw [show filterME p (x :: xs) =
            (p x >>= fun b => filterME p xs >>= fun rest =>
              pure (if b then x :: rest else rest)) from rfl, hb] at h
          simp only [okBind] at h
          cases hrest : filterME p xs with
          | error e => rw [hrest] at h; cases e; cases h
          | ok rest =>
              rw [hrest] at h
              simp only [okBind] at h
              cases h
              cases b with
              | true =>
                  rcases List.mem_cons.mp hy with rfl | hy'
                  · exact List.mem_cons_self _ _
                  · exact List.mem_cons_of_mem x (ih rest hrest y hy')
              | false => exact List.mem_cons_of_mem x (ih rest hrest y hy)

lemma getProp_ok_of_nonNullish (v : JSVal) (hv : NonNullish v) (k : String) :
    ∃ u, v.getProp k = .ok u := by
  obtain ⟨h1, h2⟩ := hv
  cases v with
  | null => exact absurd rfl h1
  | undef => exact absurd rfl h2
  | bool b => exact ⟨.undef, rfl⟩
  | num n => exact ⟨.undef, rfl⟩
  | str s => exact ⟨.undef, rfl⟩
  | arr xs => exact ⟨.undef, rfl⟩
  | obj fs => exact ⟨objGet fs k, rfl⟩

lemma jsOr_obj_getProp_ok (v : JSVal) (k : String) :
    ∃ u, (jsOr v (.obj [])).getProp k = .ok u := by
  unfold jsOr
  cases hv : v.truthy with
  | false => exact ⟨.undef, rfl⟩
  | true =>
      simp only [hv, if_true]
      apply getProp_ok_of_nonNullish
      cases v with
      | null => cases hv
      | undef => cases hv
      | bool b => exact ⟨(by intro h; cases h), (by intro h; cases h)⟩
      | num n => exact ⟨(by intro h; cases h), (by intro h; cases h)⟩
      | str s => exact ⟨(by intro h; cases h), (by intro h; cases h)⟩
      | arr xs => exact ⟨(by intro h; cases h), (by intro h; cases h)⟩
      | obj fs => exact ⟨(by intro h; cases h), (by intro h; cases h)⟩

lemma perplexity_ok (data : List (String × JSVal)) (h : perplexityShapeOk data) :
    ∃ r, Perplexity.normalizeResponse data = .ok r := by
  unfold Perplexity.normalizeResponse
  obtain ⟨srs, hsrs⟩ := mapME_ok (fun r => do
      let t ← r.getProp "title"
      let u ← r.getProp "url"
      let sn ← r.getProp "snippet"
      pure (⟨jsOr t (.str []), jsOr u (.str []), jsOr sn (.str [])⟩ : SearchResultV))
    (Perplexity.rawSearchResults data) (fun a ha => by
    obtain ⟨t, ht⟩ := getProp_ok_of_nonNullish a (h a ha) "title"
    obtain ⟨u, hu⟩ := getProp_ok_of_nonNullish a (h a ha) "url"
    obtain ⟨sn, hsn⟩ := getProp_ok_of_nonNullish a (h a ha) "snippet"
    refine ⟨⟨jsOr t (.str []), jsOr u (.str []), jsOr sn (.str [])⟩, ?_⟩
    show (a.getProp "title" >>= fun t => a.getProp "url" >>= fun u =>
      a.getProp "snippet" >>= fun sn =>
      pure (⟨jsOr t (.str []), jsOr u (.str []), jsOr sn (.str [])⟩ : SearchResultV)) =
      Except.ok _
    rw [ht]
    simp only [okBind]
    rw [hu]
    simp only [okBind]
    rw [hsn]
    rfl)
  rw [hsrs]
  simp only [okBind]
  obtain ⟨pt, hpt⟩ := jsOr_obj_getProp_ok (objGet data "usage") "prompt_tokens"
  obtain ⟨ct, hct⟩ := jsOr_obj_getProp_ok (objGet data "usage") "completion_tokens"
  obtain ⟨tt, htt⟩ := jsOr_obj_getProp_ok (objGet data "usage") "total_tokens"
  rw [hpt]
  simp only [okBind]
  rw [hct]
  simp only [okBind]
  rw [htt]
  simp only [okBind]
  exact ⟨_, rfl⟩

lemma claude_ok (data : List (String × JSVal)) (h : claudeShapeOk data) :
    ∃ r, Claude.normalizeResponse data = .ok r := by
  unfold Claude.normalizeResponse
  obtain ⟨xs, hxs, hel⟩ := h
  rw [hxs]
  simp only [jsArrayMethod_arr, okBind]
  obtain ⟨ys, hys⟩ := filterME_ok (fun block => do
      let t ← block.getProp "type"
      pure (t.sameValueZero (.str "text".toList))) xs (fun a ha => by
    obtain ⟨t, ht⟩ := getProp_ok_of_nonNullish a (hel a ha) "type"
    refine ⟨t.sameValueZero (.str "text".toList), ?_⟩
    show (a.getProp "type" >>= fun t => pure (t.sameValueZero (.str "text".toList))) =
      Except.ok _
    rw [ht]
    rfl)
  rw [hys]
  simp only [okBind]
  obtain ⟨texts, htexts⟩ := mapME_ok (fun block => do
      let tx ← block.getProp "text"
      pure (jsOr tx (.str []))) ys (fun a ha => by
    obtain ⟨tx, htx⟩ := getProp_ok_of_nonNullish a
      (hel a (filterME_mem (fun block => do
        let t ← block.getProp "type"
        pure (t.sameValueZero (.str "text".toList))) xs ys hys a ha)) "text"
    refine ⟨jsOr tx (.str []), ?_⟩
    show (a.getProp "text" >>= fun tx => pure (jsOr tx (.str []))) = Except.ok _
    rw [htx]
    rfl)
  rw [htexts]
  simp only [okBind]
  obtain ⟨it, hit⟩ := jsOr_obj_getProp_ok (objGet data "usage") "input_tokens"
  obtain ⟨ot, hot⟩ := jsOr_obj_getProp_ok (objGet data "usage") "output_tokens"
  rw [hit]
  simp only [okBind]
  rw [hot]
  simp only [okBind]
  exact ⟨_, rfl⟩

lemma processAnn_ok (ann : JSVal) (hann : NonNullish ann) (s : ChatGPT.NormState) :
    ∃ s', ChatGPT.processAnn s ann = .ok s' := by
  unfold ChatGPT.processAnn
  obtain ⟨t, ht⟩ := getProp_ok_of_nonNullish ann hann "type"
  rw [ht]
  simp only [okBind]
  split
  · obtain ⟨u, hu⟩ := getProp_ok_of_nonNullish ann hann "url"
    rw [hu]
    simp only [okBind]
    split
    · obtain ⟨ti, hti⟩ := getProp_ok_of_nonNullish ann hann "title"
      rw [hti]
      simp only [okBind]
      exact ⟨_, rfl⟩
    · exact ⟨s, rfl⟩
  · exact ⟨s, rfl⟩

lemma processPart_ok (part : JSVal) (hpart : chatgptPartOk part) (s : ChatGPT.NormState) :
    ∃ s', ChatGPT.processPart s part = .ok s' := by
  unfold ChatGPT.processPart
  obtain ⟨hnn, hobj⟩ := hpart
  obtain ⟨t, ht⟩ := getProp_ok_of_nonNullish part hnn "type"
  rw [ht]
  simp only [okBind]
  split
  · obtain ⟨tx, htx⟩ := getProp_ok_of_nonNullish part hnn "text"
    rw [htx]
    simp only [okBind]
    obtain ⟨annsRaw, hannsRaw⟩ := getProp_ok_of_nonNullish part hnn "annotations"
    rw [hannsRaw]
    simp only [okBind]
    have hiter : ∃ anns, jsIter (jsOr annsRaw (.arr [])) = .ok anns ∧
        ∀ a ∈ anns, NonNullish a := by
      cases part with
      | obj fs =>
          have : annsRaw = objGet fs "annotations" := by
            have : JSVal.getProp (.obj fs) "annotations" = .ok (objGet fs "annotations") := rfl
            rw [this] at hannsRaw
            cases hannsRaw
            rfl
          subst this
          exact hobj fs rfl
      | null => exact absurd rfl hnn.1
      | undef => exact absurd rfl hnn.2
      | bool b =>
          have : annsRaw = .undef := by
            have : JSVal.getProp (.bool b) "annotations" = .ok .undef := rfl
            rw [this] at hannsRaw
            cases hannsRaw
            rfl
          subst this
          exact ⟨[], rfl, by intro a ha; cases ha⟩
      | num n =>
          have : annsRaw = .undef := by
            have : JSVal.getProp (.num n) "annotations" = .ok .undef := rfl
            rw [this] at hannsRaw
            cases hannsRaw
            rfl
          subst this
          exact ⟨[], rfl, by intro a ha; cases ha⟩
      | str st =>
          have : annsRaw = .undef := by
            have : JSVal.getProp (.str st) "annotations" = .ok .undef := rfl
            rw [this] at hannsRaw
            cases hannsRaw
            rfl
          subst this
          exact ⟨[], rfl, by intro a ha; cases ha⟩
      | arr xs =>
          have : annsRaw = .undef := by
            have : JSVal.getProp (.arr xs) "annotations" = .ok .undef := rfl
            rw [this] at hannsRaw
            cases hannsRaw
            rfl
          subst this
          exact ⟨[], rfl, by intro a ha; cases ha⟩
    obtain ⟨anns, hanns, hannEl⟩ := hiter
    rw [hanns]
    simp only [okBind]
    exact foldME_ok _ anns (fun a ha s => processAnn_ok a (hannEl a ha) s) _
  · exact ⟨s, rfl⟩

lemma processMsg_ok (msg : JSVal) (hmsg : chatgptItemOk msg) (s : ChatGPT.NormState) :
    ∃ s', ChatGPT.processMsg s msg = .ok s' := by
  unfold ChatGPT.processMsg
  obtain ⟨hnn, hobj⟩ := hmsg
  obtain ⟨partsRaw, hpartsRaw⟩ := getProp_ok_of_nonNullish msg hnn "content"
  rw [hpartsRaw]
  simp only [okBind]
  have hiter : ∃ parts, jsIter (jsOr partsRaw (.arr [])) = .ok parts ∧
      ∀ p ∈ parts, chatgptPartOk p := by
    cases msg with
    | obj fs =>
        have : partsRaw = objGet fs "content" := by
          have : JSVal.getProp (.obj fs) "content" = .ok (objGet fs "content") := rfl
          rw [this] at hpartsRaw
          cases hpartsRaw
          rfl
        subst this
        exact hobj fs rfl
    | null => exact absurd rfl hnn.1
    | undef => exact absurd rfl hnn.2
    | bool b =>
        have : partsRaw = .undef := by
          have : JSVal.getProp (.bool b) "content" = .ok .undef := rfl
          rw [this] at hpartsRaw
          cases hpartsRaw
          rfl
        subst this
        exact ⟨[], rfl, by intro a ha; cases ha⟩
    | num n =>
        have : partsRaw = .undef := by
          have : JSVal.getProp (.num n) "content" = .ok .undef := rfl
          rw [this] at hpartsRaw
          cases hpartsRaw
          rfl
        subst this
        exact ⟨[], rfl, by intro a ha; cases ha⟩
    | str st =>
        have : partsRaw = .undef := by
          have : JSVal.getProp (.str st) "content" = .ok .undef := rfl
          rw [this] at hpartsRaw
          cases hpartsRaw
          rfl
        subst this
        exact ⟨[], rfl, by intro a ha; cases ha⟩
    | arr xs =>
        have : partsRaw = .undef := by
          have : JSVal.getProp (.arr xs) "content" = .ok .undef := rfl
          rw [this] at hpartsRaw
          cases hpartsRaw
          rfl
        subst this
        exact ⟨[], rfl, by intro a ha; cases ha⟩
  obtain ⟨parts, hparts, hpartEl⟩ := hiter
  rw [hparts]
  simp only [okBind]
  exact foldME_ok _ parts (fun p hp s => processPart_ok p (hpartEl p hp) s) _

lemma chatgpt_ok (data : List (String × JSVal)) (h : chatgptShapeOk data) :
    ∃ r, ChatGPT.normalizeResponse data = .ok r := by
  unfold ChatGPT.normalizeResponse
  obtain ⟨items, hitems, hel⟩ := h
  rw [hitems]
  simp only [jsArrayMethod_arr, okBind]
  obtain ⟨messageItems, hmi⟩ := filterME_ok (fun item => do
      let t ← item.getProp "type"
      pure (t.sameValueZero (.str "message".toList))) items (fun a ha => by
    obtain ⟨t, ht⟩ := getProp_ok_of_nonNullish a (hel a ha).1 "type"
    refine ⟨t.sameValueZero (.str "message".toList), ?_⟩
    show (a.getProp "type" >>= fun t => pure (t.sameValueZero (.str "message".toList))) =
      Except.ok _
    rw [ht]
    rfl)
  rw [hmi]
  simp only [okBind]
  obtain ⟨st, hst⟩ := foldME_ok ChatGPT.processMsg messageItems (fun m hm s =>
    processMsg_ok m (hel m (filterME_mem (fun item => do
      let t ← item.getProp "type"
      pure (t.sameValueZero (.str "message".toList))) items messageItems hmi m hm)) s)
    ⟨.str [], [], []⟩
  rw [hst]
  simp only [okBind]
  obtain ⟨it, hit⟩ := jsOr_obj_getProp_ok (objGet data "usage") "input_tokens"
  obtain ⟨ot, hot⟩ := jsOr_obj_getProp_ok (objGet data "usage") "output_tokens"
  rw [hit]
  simp only [okBind]
  rw [hot]
  simp only [okBind]
  exact ⟨_, rfl⟩

lemma claude_structural (data : List (String × JSVal)) (r : NormalizedResult)
    (h : Claude.normalizeResponse data = .ok r) :
    r.citations = [] ∧ r.searchResults = [] := by
  unfold Claude.normalizeResponse at h
  cases hc : jsArrayMethod (jsOr (objGet data "content") (.arr [])) with
  | error e => rw [hc] at h; cases e; cases h
  | ok contentBlocks =>
      rw [hc] at h
      simp only [okBind] at h
      cases hf : filterME (fun block => do
          let t ← block.getProp "type"
          pure (t.sameValueZero (.str "text".toList))) contentBlocks with
      | error e => rw [hf] at h; cases e; cases h
      | ok textBlocks =>
          rw [hf] at h
          simp only [okBind] at h
          cases hm : mapME (fun block => do
              let tx ← block.getProp "text"
              pure (jsOr tx (.str []))) textBlocks with
          | error e => rw [hm] at h; cases e; cases h
          | ok texts =>
              rw [hm] at h
              simp only [okBind] at h
              cases hit : (jsOr (objGet data "usage") (.obj [])).getProp "input_tokens" with
              | error e => rw [hit] at h; cases e; cases h
              | ok it =>
                  rw [hit] at h
                  simp only [okBind] at h
                  cases hot : (jsOr (objGet data "usage") (.obj [])).getProp "output_tokens" with
                  | error e => rw [hot] at h; cases e; cases h
                  | ok ot =>
                      rw [hot] at h
                      simp only [okBind] at h
                      cases h
                      exact ⟨rfl, rfl⟩

/-- Claim C8 (amended): on the empty payload all three normalizers return
the all-default NormalizedResult; each normalizer succeeds on every payload
whose iterated collections are well-shaped (arrays with non-nullish
elements where the code dereferences them); Claude's citations and
searchResults are structurally empty on every payload it accepts; and an
absent Perplexity citations field yields the empty citations default.  On
ill-shaped payloads a normalizer can throw (see the counterexample). -/
theorem c8_normalizer_defaults :
    Perplexity.normalizeResponse [] = .ok defaultNormalized ∧
    ChatGPT.normalizeResponse [] = .ok defaultNormalized ∧
    Claude.normalizeResponse [] = .ok defaultNormalized ∧
    (∀ data, perplexityShapeOk data → ∃ r, Perplexity.normalizeResponse data = .ok r) ∧
    (∀ data, chatgptShapeOk data → ∃ r, ChatGPT.normalizeResponse data = .ok r) ∧
    (∀ data, claudeShapeOk data → ∃ r, Claude.normalizeResponse data = .ok r) ∧
    (∀ data r, Claude.normalizeResponse data = .ok r →
      r.citations = [] ∧ r.searchResults = []) ∧
    (∀ data r, Perplexity.normalizeResponse data = .ok r →
      objGet data "citations" = .undef → r.citations = []) := by
  refine ⟨rfl, rfl, rfl, perplexity_ok, chatgpt_ok, claude_ok, claude_structural, ?_⟩
  intro data r h hu
  rw [perplexity_citations_passthrough data r h]
  unfold Perplexity.rawCitations
  rw [hu]

/-- Claim C8, counterexample: the Claude normalizer throws a TypeError on
the payload whose content field is the number 5 (`.filter` on a
non-array), refuting no-exception-for-every-payload. -/
theorem c8_counterexample :
    Claude.normalizeResponse [("content", .num 5)] = .error () := rfl

/-- Witness for claim C8: the three existence conjuncts applied to the
empty payload. -/
theorem c8_witness :
    (∃ r, Perplexity.normalizeResponse [] = .ok r) ∧
    (∃ r, ChatGPT.normalizeResponse [] = .ok r) ∧
    (∃ r, Claude.normalizeResponse [] = .ok r) := by
  refine ⟨c8_normalizer_defaults.2.2.2.1 [] ?_, c8_normalizer_defaults.2.2.2.2.1 [] ?_,
    c8_normalizer_defaults.2.2.2.2.2.1 [] ?_⟩
  · intro x hx
    have hx' : x ∈ ([] : List JSVal) := hx
    cases hx'
  · exact ⟨[], rfl, by intro x hx; cases hx⟩
  · exact ⟨[], rfl, by intro x hx; cases hx⟩

lemma jsOr_default_idem (a d : JSVal) (hd : jsOr d d = d) : jsOr (jsOr a d) d = jsOr a d := by
  unfold jsOr at *
  cases ha : a.truthy with
  | true => simp [ha]
  | false =>
      simp only [ha, Bool.false_eq_true, if_false]
      exact hd

/-- Claim C10 (amended): analyzeResponse succeeds on every input whose
content is absent or a string, citations absent or an array, and
searchResults absent or an array of objects whose url, when truthy, is a
string; absent fields are treated exactly as the empty string or empty
array; and the usage field is never read.  Without the url restriction the
analyzer can throw (see the counterexample). -/
theorem c10_analyzer_safe :
    (∀ (c cs sr u : JSVal),
      (c = .undef ∨ ∃ s, c = .str s) →
      (cs = .undef ∨ ∃ xs, cs = .arr xs) →
      (sr = .undef ∨ ∃ xs, sr = .arr xs ∧ ∀ x ∈ xs, ∃ fs, x = .obj fs ∧
        ((objGet fs "url").truthy = true → ∃ s, objGet fs "url" = .str s)) →
      ∃ a, Analysis.analyzeResponse ⟨c, cs, sr, u⟩ = .ok a) ∧
    (∀ (c cs sr u : JSVal),
      Analysis.analyzeResponse ⟨c, cs, sr, u⟩ =
        Analysis.analyzeResponse ⟨jsOr c (.str []), jsOr cs (.arr []), jsOr sr (.arr []), u⟩) ∧
    (∀ (c cs sr u u' : JSVal),
      Analysis.analyzeResponse ⟨c, cs, sr, u⟩ = Analysis.analyzeResponse ⟨c, cs, sr, u'⟩) := by
  refine ⟨?_, ?_, ?_⟩
  · intro c cs sr u hc hcs hsr
    unfold Analysis.analyzeResponse
    dsimp only
    have hcl : ∃ cl, jsToLowerCase (jsOr c (.str [])) = .ok cl := by
      rcases hc with rfl | ⟨s, rfl⟩
      · exact ⟨[], rfl⟩
      · cases s with
        | nil => exact ⟨[], rfl⟩
        | cons a as => exact ⟨lowerStr (a :: as), rfl⟩
    obtain ⟨cl, hclv⟩ := hcl
    rw [hclv]
    simp only [okBind]
    have hex : ∃ ds, Analysis.extractDsPages (jsOr cs (.arr [])) (jsOr sr (.arr [])) =
        .ok ds := by
      have hcits : ∃ xs, jsOr cs (.arr []) = .arr xs := by
        rcases hcs with rfl | ⟨xs, rfl⟩
        · exact ⟨[], rfl⟩
        · exact ⟨xs, rfl⟩
      have hsrs : ∃ xs, jsOr sr (.arr []) = .arr xs ∧ ∀ x ∈ xs, ∃ fs, x = .obj fs ∧
          ((objGet fs "url").truthy = true → ∃ s, objGet fs "url" = .str s) := by
        rcases hsr with rfl | ⟨xs, hxs, hel⟩
        · exact ⟨[], rfl, by intro x hx; cases hx⟩
        · subst hxs
          exact ⟨xs, rfl, hel⟩
      obtain ⟨cxs, hcxs⟩ := hcits
      obtain ⟨sxs, hsxs, hel⟩ := hsrs
      rw [hcxs, hsxs]
      unfold Analysis.extractDsPages
      simp only [jsIter_arr, okBind]
      apply foldME_ok
      intro x hx s
      obtain ⟨fs, rfl, hurl⟩ := hel x hx
      show ∃ s', ((JSVal.obj fs).getProp "url" >>= fun v =>
        if v.truthy then
          (jsIncludesStr v Analysis.DS_DOMAIN >>= fun b =>
            pure (if b then Analysis.addToSet s v else s))
        else pure s) = .ok s'
      simp only [getProp_obj, okBind]
      by_cases ht : (objGet fs "url").truthy = true
      · obtain ⟨sv, hsv⟩ := hurl ht
        rw [hsv]
        rw [if_pos (show (JSVal.str sv).truthy = true from hsv ▸ ht)]
        simp only [jsIncludesStr_str, okBind]
        exact ⟨_, rfl⟩
      · rw [if_neg ht]
        exact ⟨s, rfl⟩
    obtain ⟨ds, hds⟩ := hex
    rw [hds]
    simp only [okBind]
    exact ⟨_, rfl⟩
  · intro c cs sr u
    unfold Analysis.analyzeResponse
    dsimp only
    rw [jsOr_default_idem c (.str []) rfl, jsOr_default_idem cs (.arr []) rfl,
      jsOr_default_idem sr (.arr []) rfl]
  · intro c cs sr u u'
    rfl

/-- Claim C10, counterexample: a searchResults element that is an object
whose url is the number 5 makes analyzeResponse throw (`.includes` on a
number), refuting no-exception under the claim's hypotheses. -/
theorem c10_counterexample :
    Analysis.analyzeResponse ⟨.undef, .undef, .arr [.obj [("url", .num 5)]], .undef⟩ =
      .error () := rfl

/-- Witness for claim C10: the all-absent input with a numeric usage. -/
theorem c10_witness :
    ∃ a, Analysis.analyzeResponse ⟨.undef, .undef, .undef, .num 7⟩ = .ok a :=
  c10_analyzer_safe.1 .undef .undef .undef (.num 7) (Or.inl rfl) (Or.inl rfl) (Or.inl rfl)

namespace Orchestrator

lemma trackLoop_rows (source : Source) (d : String) :
    ∀ (qs : List GeoQuery) (st : TrackState),
      (qs.foldl (trackStep source d) st).rows = st.rows ++ qs.filterMap (rowOf source d) := by
  intro qs
  induction qs with
  | nil => intro st; simp
  | cons q rest ih =>
      intro st
      rw [List.foldl_cons]
      cases hq : source.query q.searchTerms.head? with
      | error e =>
          have hstep : trackStep source d st q = { st with fail := st.fail + 1 } := by
            unfold trackStep
            rw [hq]
          have hrow : rowOf source d q = none := by
            unfold rowOf
            rw [hq]
          rw [hstep, ih, List.filterMap_cons, hrow]
      | ok result =>
          cases ha : Analysis.analyzeResponse (NormalizedResult.toAnalyzerInput result) with
          | error e =>
              have hstep : trackStep source d st q =
                  { st with fail := st.fail + 1,
                            totalTokens := jsAdd st.totalTokens result.usage.totalTokens } := by
                unfold trackStep
                rw [hq]
                dsimp only
                rw [ha]
              have hrow : rowOf source d q = none := by
                unfold rowOf
                rw [hq]
                dsimp only
                rw [ha]
              rw [hstep, ih, List.filterMap_cons, hrow]
          | ok analysis =>
              have hstep : trackStep source d st q =
                  { success := st.success + 1, fail := st.fail,
                    totalTokens := jsAdd st.totalTokens result.usage.totalTokens,
                    rows := st.rows ++
                      [buildRow source d q analysis result.usage.totalTokens] } := by
                unfold trackStep
                rw [hq]
                dsimp only
                rw [ha]
              have hrow : rowOf source d q =
                  some (buildRow source d q analysis result.usage.totalTokens) := by
                unfold rowOf
                rw [hq]
                dsimp only
                rw [ha]
              rw [hstep, ih, List.filterMap_cons, hrow]
              simp

lemma runLoop_rows (queries : List GeoQuery) (d : String) :
    ∀ (sources : List Source) (st : RunState),
      (sources.foldl (runStep queries d) st).allRows =
        st.allRows ++ sources.flatMap (fun s => (trackSource s queries d).rows) := by
  intro sources
  induction sources with
  | nil => intro st; simp
  | cons s rest ih =>
      intro st
      rw [List.foldl_cons]
      have hstep : (runStep queries d st s).allRows =
          st.allRows ++ (trackSource s queries d).rows := rfl
      rw [ih]
      rw [hstep]
      rw [List.flatMap_cons, List.append_assoc]

end Orchestrator

/-- Claim C9: the rows of a run are the concatenation, in configured source
order, of each source's rows, and within a source the rows are the
query-list-ordered filterMap of the per-query row builder, so successful
queries appear in configured order. -/
theorem c9_row_ordering (queries : List Orchestrator.GeoQuery)
    (sources : List Orchestrator.Source) (d : String) :
    (Orchestrator.runTracker queries sources d).rows =
      sources.flatMap (fun s => (Orchestrator.trackSource s queries d).rows) ∧
    (∀ s, (Orchestrator.trackSource s queries d).rows =
      queries.filterMap (Orchestrator.rowOf s d)) := by
  constructor
  · have h := Orchestrator.runLoop_rows queries d sources ⟨[], [], 0, 0, .num 0, 0⟩
    simpa using h
  · intro s
    have h := Orchestrator.trackLoop_rows s d queries ⟨0, 0, .num 0, []⟩
    simpa using h

namespace Orchestrator

lemma estimateCost_zero (name : String) : estimateCost name (.num 0) = 0 := by
  unfold estimateCost
  simp

lemma trackLoop_allfail (A : Source) (d : String)
    (hA : ∀ t, ∃ e, A.query t = .error e) :
    ∀ (qs : List GeoQuery) (st : TrackState),
      (qs.foldl (trackStep A d) st).success = st.success ∧
      (qs.foldl (trackStep A d) st).fail = st.fail + qs.length ∧
      (qs.foldl (trackStep A d) st).totalTokens = st.totalTokens ∧
      (qs.foldl (trackStep A d) st).rows = st.rows := by
  intro qs
  induction qs with
  | nil => intro st; exact ⟨rfl, rfl, rfl, rfl⟩
  | cons q rest ih =>
      intro st
      rw [List.foldl_cons]
      obtain ⟨e, he⟩ := hA q.searchTerms.head?
      have hstep : trackStep A d st q = { st with fail := st.fail + 1 } := by
        unfold trackStep
        rw [he]
      rw [hstep]
      obtain ⟨h1, h2, h3, h4⟩ := ih ⟨st.success, st.fail + 1, st.totalTokens, st.rows⟩
      refine ⟨h1, ?_, h3, h4⟩
      rw [h2]
      show st.fail + 1 + rest.length = st.fail + (q :: rest).length
      rw [List.length_cons]
      omega

lemma trackLoop_allok (B : Source) (d : String) (f : Option String → StrictResult)
    (hB : ∀ t, B.query t = .ok (f t).toNormalized) :
    ∀ (qs : List GeoQuery) (st : TrackState),
      (qs.foldl (trackStep B d) st).success = st.success + qs.length ∧
      (qs.foldl (trackStep B d) st).fail = st.fail := by
  intro qs
  induction qs with
  | nil => intro st; exact ⟨rfl, rfl⟩
  | cons q rest ih =>
      intro st
      rw [List.foldl_cons]
      have hana : Analysis.analyzeResponse
          (NormalizedResult.toAnalyzerInput (f q.searchTerms.head?).toNormalized) =
          .ok (analyzeStrict (f q.searchTerms.head?)) :=
        analyzeResponse_strict (f q.searchTerms.head?)
      have hstep : trackStep B d st q =
          { success := st.success + 1, fail := st.fail,
            totalTokens := jsAdd st.totalTokens
              ((f q.searchTerms.head?).toNormalized.usage.totalTokens),
            rows := st.rows ++ [buildRow B d q (analyzeStrict (f q.searchTerms.head?))
              ((f q.searchTerms.head?).toNormalized.usage.totalTokens)] } := by
        unfold trackStep
        rw [hB q.searchTerms.head?]
        dsimp only
        rw [hana]
      rw [hstep]
      have hrest := ih ⟨st.success + 1, st.fail,
        jsAdd st.totalTokens ((f q.searchTerms.head?).toNormalized.usage.totalTokens),
        st.rows ++ [buildRow B d q (analyzeStrict (f q.searchTerms.head?))
          ((f q.searchTerms.head?).toNormalized.usage.totalTokens)]⟩
      obtain ⟨h1, h2⟩ := hrest
      refine ⟨?_, h2⟩
      rw [h1]
      show st.success + 1 + rest.length = st.success + (q :: rest).length
      rw [List.length_cons]
      omega

lemma trackSource_allfail (A : Source) (d : String)
    (hA : ∀ t, ∃ e, A.query t = .error e) (qs : List GeoQuery) :
    trackSource A qs d =
      ⟨⟨0, qs.length, .num 0, estimateCost A.name (.num 0)⟩, []⟩ := by
  unfold trackSource
  obtain ⟨h1, h2, h3, h4⟩ := trackLoop_allfail A d hA qs ⟨0, 0, .num 0, []⟩
  rw [show (⟨0, 0, .num 0, []⟩ : TrackState).fail = 0 from rfl] at h2
  dsimp only
  rw [h1, h2, h3, h4]
  simp

end Orchestrator

/-- Claim C7: with provider A always throwing and provider B always
succeeding with well-typed results (and distinct names), the run records 0
successes and N failures for A (zero tokens and cost), N successes and 0
failures for B, and the run's rows equal the rows of a run with B alone. -/
theorem c7_fault_isolation (queries : List Orchestrator.GeoQuery)
    (A B : Orchestrator.Source) (d : String) (f : Option String → StrictResult)
    (hA : ∀ t, ∃ e, A.query t = .error e)
    (hB : ∀ t, B.query t = .ok (f t).toNormalized)
    (hName : A.name ≠ B.name) :
    Orchestrator.lookupAssoc (Orchestrator.runTracker queries [A, B] d).perSource A.name =
      some ⟨0, queries.length, .num 0, Orchestrator.estimateCost A.name (.num 0)⟩ ∧
    (∃ srB, Orchestrator.lookupAssoc
        (Orchestrator.runTracker queries [A, B] d).perSource B.name = some srB ∧
      srB.success = queries.length ∧ srB.fail = 0) ∧
    (Orchestrator.runTracker queries [A, B] d).rows =
      (Orchestrator.runTracker queries [B] d).rows := by
  have hTA := Orchestrator.trackSource_allfail A d hA queries
  have hTBcounts := Orchestrator.trackLoop_allok B d f hB queries ⟨0, 0, .num 0, []⟩
  set rA : Orchestrator.SourceResult :=
    ⟨0, queries.length, .num 0, Orchestrator.estimateCost A.name (.num 0)⟩ with hrA
  set rB : Orchestrator.SourceResult := (Orchestrator.trackSource B queries d).sourceResult
    with hrB
  have hBsucc : rB.success = queries.length := by
    rw [hrB]
    unfold Orchestrator.trackSource
    dsimp only
    rw [hTBcounts.1]
    show 0 + queries.length = queries.length
    omega
  have hBfail : rB.fail = 0 := by
    rw [hrB]
    unfold Orchestrator.trackSource
    dsimp only
    rw [hTBcounts.2]
  have hbeqAA : (A.name == A.name) = true := beq_self_eq_true A.name
  have hbeqAB : (A.name == B.name) = false := beq_eq_false_iff_ne.mpr hName
  have hper : (Orchestrator.runTracker queries [A, B] d).perSource =
      [(A.name, rA), (B.name, rB)] := by
    show (Orchestrator.runStep queries d (Orchestrator.runStep queries d
      ⟨[], [], 0, 0, .num 0, 0⟩ A) B).perSource = _
    unfold Orchestrator.runStep
    dsimp only
    rw [hTA]
    dsimp only
    unfold Orchestrator.setAssoc
    simp only [List.any_nil, List.any_cons, List.append_nil, List.nil_append, hbeqAB,
      Bool.false_eq_true, if_false, Bool.or_self]
    rfl
  have hrowsA : (Orchestrator.trackSource A queries d).rows = [] := by
    rw [hTA]
  refine ⟨?_, ⟨rB, ?_, hBsucc, hBfail⟩, ?_⟩
  · rw [hper]
    unfold Orchestrator.lookupAssoc
    simp [hbeqAA]
  · rw [hper]
    unfold Orchestrator.lookupAssoc
    have hfind : List.find? (fun p => p.1 == B.name) [(A.name, rA), (B.name, rB)] =
        some (B.name, rB) := by
      have h1 : List.find? (fun p => p.1 == B.name) [(A.name, rA), (B.name, rB)] =
          List.find? (fun p => p.1 == B.name) [(B.name, rB)] :=
        List.find?_cons_of_neg _ (by simp [hbeqAB])
      rw [h1]
      exact List.find?_cons_of_pos _ (by simp)
    rw [hfind]
    rfl
  · have hrowsAB : (Orchestrator.runTracker queries [A, B] d).rows =
        [A, B].flatMap (fun s => (Orchestrator.trackSource s queries d).rows) :=
      (c9_row_ordering queries [A, B] d).1
    have hrowsB : (Orchestrator.runTracker queries [B] d).rows =
        [B].flatMap (fun s => (Orchestrator.trackSource s queries d).rows) :=
      (c9_row_ordering queries [B] d).1
    rw [hrowsAB, hrowsB]
    simp [hrowsA]

/-- Witness for claim C7 at a concrete one-query configuration. -/
theorem c7_witness :
    Orchestrator.lookupAssoc
      (Orchestrator.runTracker c7Queries [c7SourceA, c7SourceB] "2026-02-09").perSource
      c7SourceA.name =
      some ⟨0, c7Queries.length, .num 0,
        Orchestrator.estimateCost c7SourceA.name (.num 0)⟩ ∧
    (∃ srB, Orchestrator.lookupAssoc
      (Orchestrator.runTracker c7Queries [c7SourceA, c7SourceB] "2026-02-09").perSource
      c7SourceB.name = some srB ∧
      srB.success = c7Queries.length ∧ srB.fail = 0) ∧
    (Orchestrator.runTracker c7Queries [c7SourceA, c7SourceB] "2026-02-09").rows =
      (Orchestrator.runTracker c7Queries [c7SourceB] "2026-02-09").rows :=
  c7_fault_isolation c7Queries c7SourceA c7SourceB "2026-02-09"
    (fun _ => ⟨[], [], [], 0, 0, 0⟩) (fun _ => ⟨"boom", rfl⟩) (fun _ => rfl) (by decide)


/-- Witness for claim C6: a sink answering 404 yields false after exactly one
attempt. -/
theorem c6_witness :
    Plausible.sendEventToPlausible true (fun _ => .respond 404) = (false, 1) := by
  have h := c6_retry_spec (fun _ => .respond 404)
  exact h.2.2.2.1 404 (by decide) (by decide) rfl
